import Mathlib

/-!
# OverlayBufferManager (common/core/overlaybuffermanager.cpp)

A shallow embedding of the reference-counted buffer registry of the hardware
composer, and machine-checked statements about it.

Conventions of the embedding

* An `OverlayBuffer*` is a natural number, `0` being `nullptr`.  The object
  behind the pointer (format, planes, strides) is not part of the model.
* `buffers_` (a `std::vector<Buffer>`) is a `List Buffer`.
* The range-based `for` loops over `buffers_` are functions that carry the
  iterator position `it`, the distance `todo` from `it` to `end()`, and, in the
  unregister family, the `int32_t index` the source counts next to the iterator.
* `buffers_.erase(buffers_.begin() + index)` is defined only for
  `0 <= index < size()`; everywhere else it is undefined behaviour, which the
  embedding renders as `none`.
* `ScopedSpinLock` serialises the operations; each operation is therefore a
  function from the state before to the state after.
-/

namespace hwcomposer

/-- Modelled from the spec: the `NativeSync` class is declared outside this
file.  The registry only constructs it, calls `Init()` on it and drops it, so
the object is represented by the result its `Init()` returned. -/
structure NativeSync where
  init_ok : Bool
  deriving DecidableEq

namespace NativeSync

/-- Modelled from the spec: `NativeSync::State`, the release-fence state of a
layer, a value among "ready, pending, ...".  The source compares it against
`kReady` only; every other enumerator is `kOther`. -/
inductive State where
  | kReady
  | kOther (code : Nat)
  deriving DecidableEq

end NativeSync

/-- Modelled from the spec: `OverlayBufferManager::Buffer`, declared in the
header that is not part of the sources: the owned buffer (by identity), the
owned sync object (zero or one) and the signed reference count. -/
structure Buffer where
  buffer_ : Nat
  sync_object_ : Option NativeSync
  ref_count_ : Int
  deriving DecidableEq

/-- Modelled from the spec: `OverlayLayer` as the registry sees it:
`GetReleaseFenceState()`, `GetBuffer()` (0 for a layer without buffer) and the
flag that `MarkBufferReleased()` raises. -/
structure OverlayLayer where
  release_fence_state_ : NativeSync.State
  buffer_ : Nat
  buffer_released_ : Bool
  deriving DecidableEq

namespace OverlayLayer

def GetReleaseFenceState (layer : OverlayLayer) : NativeSync.State :=
  layer.release_fence_state_

def GetBuffer (layer : OverlayLayer) : Nat :=
  layer.buffer_

def MarkBufferReleased (layer : OverlayLayer) : OverlayLayer :=
  { layer with buffer_released_ := true }

end OverlayLayer

/-- The handle `CreateBuffer` gives out: the buffer identity and the fence that
`CreateNextTimelineFence()` returned.  The `buffer_manager_` back pointer is
the manager state the destructor is applied to. -/
structure ImportedBuffer where
  buffer_ : Nat
  acquire_fence_ : Int
  deriving DecidableEq

/-- State of an `OverlayBufferManager`: the registry and the native buffer
handler (`none` while `buffer_handler_` is null). -/
structure OverlayBufferManager where
  buffers_ : List Buffer
  buffer_handler_ : Option Nat
  deriving DecidableEq

namespace OverlayBufferManager

/-- A freshly constructed manager: no entry, no handler. -/
def empty : OverlayBufferManager :=
  { buffers_ := [], buffer_handler_ := none }

/-- `Initialize(gpu_fd)`; `instance_` is what
`NativeBufferHandler::CreateInstance(gpu_fd)` returned (`none` for null). -/
def Initialize (m : OverlayBufferManager) (instance_ : Option Nat) :
    OverlayBufferManager × Bool :=
  let m1 := { m with buffer_handler_ := instance_ }
  if m1.buffer_handler_.isNone then (m1, false) else (m1, true)

/-- `CreateBuffer(bo)`.  `new_buffer` is the pointer `new OverlayBuffer()`
returned, `init_ok` the result of `sync_object_->Init()` and `fence` the
result of `CreateNextTimelineFence()`. -/
def CreateBuffer (m : OverlayBufferManager) (new_buffer : Nat) (init_ok : Bool)
    (fence : Int) : OverlayBufferManager × ImportedBuffer :=
  let buffer : Buffer :=
    { buffer_ := new_buffer, sync_object_ := some { init_ok := init_ok }, ref_count_ := 1 }
  ({ m with buffers_ := m.buffers_ ++ [buffer] },
   { buffer_ := buffer.buffer_, acquire_fence_ := fence })

/-- `CreateBufferFromNativeHandle(handle)`; the registry side is the one of
`CreateBuffer`, the imported object being initialised through the handler. -/
def CreateBufferFromNativeHandle (m : OverlayBufferManager) (new_buffer : Nat)
    (init_ok : Bool) (fence : Int) : OverlayBufferManager × ImportedBuffer :=
  let buffer : Buffer :=
    { buffer_ := new_buffer, sync_object_ := some { init_ok := init_ok }, ref_count_ := 1 }
  ({ m with buffers_ := m.buffers_ ++ [buffer] },
   { buffer_ := buffer.buffer_, acquire_fence_ := fence })

/-- The loop of `RegisterBuffer`: `it` is the iterator position and `todo` the
number of elements from `it` to `end()`. -/
def RegisterBuffer_scan (buffer : Nat) : Nat → Nat → List Buffer → List Buffer
  | 0, _, buffers_ => buffers_
  | todo + 1, it, buffers_ =>
    match buffers_[it]? with
    | none => buffers_
    | some overlay_buffer =>
      if overlay_buffer.buffer_ ≠ buffer then
        RegisterBuffer_scan buffer todo (it + 1) buffers_
      else
        buffers_.set it { overlay_buffer with ref_count_ := overlay_buffer.ref_count_ + 1 }

def RegisterBuffer (m : OverlayBufferManager) (buffer : Nat) : OverlayBufferManager :=
  { m with buffers_ := RegisterBuffer_scan buffer m.buffers_.length 0 m.buffers_ }

/-- The outer loop of `RegisterBuffers`. -/
def RegisterBuffers_loop : List Nat → List Buffer → List Buffer
  | [], buffers_ => buffers_
  | buffer :: rest, buffers_ =>
    RegisterBuffers_loop rest (RegisterBuffer_scan buffer buffers_.length 0 buffers_)

def RegisterBuffers (m : OverlayBufferManager) (buffers : List Nat) : OverlayBufferManager :=
  { m with buffers_ := RegisterBuffers_loop buffers m.buffers_ }

/-- `buffers_.erase(buffers_.begin() + index)`: defined for an index inside the
vector only. -/
def erase_at (buffers_ : List Buffer) (index : Int) : Option (List Buffer) :=
  if 0 ≤ index ∧ index < buffers_.length then some (buffers_.eraseIdx index.toNat) else none

/-- The loop of `UnRegisterBuffer` (and the inner loop of `UnRegisterBuffers`):
`it` is the iterator position, `todo` the number of elements from `it` to
`end()`, `index` the counter of the source. -/
def UnRegisterBuffer_scan (buffer : Nat) : Nat → Nat → Int → List Buffer → Option (List Buffer)
  | 0, _, _, buffers_ => some buffers_
  | todo + 1, it, index, buffers_ =>
    let index := index + 1
    match buffers_[it]? with
    | none => some buffers_
    | some overlay_buffer =>
      if overlay_buffer.buffer_ ≠ buffer then
        UnRegisterBuffer_scan buffer todo (it + 1) index buffers_
      else
        let overlay_buffer := { overlay_buffer with ref_count_ := overlay_buffer.ref_count_ - 1 }
        let buffers_ := buffers_.set it overlay_buffer
        if overlay_buffer.ref_count_ ≤ 0 then erase_at buffers_ index else some buffers_

def UnRegisterBuffer (m : OverlayBufferManager) (buffer : Nat) : Option OverlayBufferManager :=
  match UnRegisterBuffer_scan buffer m.buffers_.length 0 (-1) m.buffers_ with
  | none => none
  | some buffers_ => some { m with buffers_ := buffers_ }

/-- The outer loop of `UnRegisterBuffers`. -/
def UnRegisterBuffers_loop : List Nat → List Buffer → Option (List Buffer)
  | [], buffers_ => some buffers_
  | buffer :: rest, buffers_ =>
    match UnRegisterBuffer_scan buffer buffers_.length 0 (-1) buffers_ with
    | none => none
    | some buffers_ => UnRegisterBuffers_loop rest buffers_

def UnRegisterBuffers (m : OverlayBufferManager) (buffers : List Nat) :
    Option OverlayBufferManager :=
  match UnRegisterBuffers_loop buffers m.buffers_ with
  | none => none
  | some buffers_ => some { m with buffers_ := buffers_ }

/-- The inner loop of `SignalBuffersIfReady`. -/
def SignalBuffersIfReady_scan (buffer : Nat) : Nat → Nat → List Buffer → List Buffer
  | 0, _, buffers_ => buffers_
  | todo + 1, it, buffers_ =>
    match buffers_[it]? with
    | none => buffers_
    | some overlay_buffer =>
      if overlay_buffer.buffer_ ≠ buffer then
        SignalBuffersIfReady_scan buffer todo (it + 1) buffers_
      else
        buffers_.set it { overlay_buffer with sync_object_ := none }

/-- The outer loop of `SignalBuffersIfReady`. -/
def SignalBuffersIfReady_loop : List OverlayLayer → List Buffer → List Buffer
  | [], buffers_ => buffers_
  | layer :: rest, buffers_ =>
    if layer.GetReleaseFenceState ≠ NativeSync.State.kReady then
      SignalBuffersIfReady_loop rest buffers_
    else
      let buffer := layer.GetBuffer
      if buffer = 0 then
        SignalBuffersIfReady_loop rest buffers_
      else
        SignalBuffersIfReady_loop rest
          (SignalBuffersIfReady_scan buffer buffers_.length 0 buffers_)

def SignalBuffersIfReady (m : OverlayBufferManager) (layers : List OverlayLayer) :
    OverlayBufferManager :=
  { m with buffers_ := SignalBuffersIfReady_loop layers m.buffers_ }

/-- The inner loop of `UnRegisterLayerBuffers`; it returns the registry and the
layer, which `MarkBufferReleased()` changes when an entry matches. -/
def UnRegisterLayerBuffers_scan (buffer : Nat) :
    Nat → Nat → Int → List Buffer → OverlayLayer → Option (List Buffer × OverlayLayer)
  | 0, _, _, buffers_, layer => some (buffers_, layer)
  | todo + 1, it, index, buffers_, layer =>
    let index := index + 1
    match buffers_[it]? with
    | none => some (buffers_, layer)
    | some overlay_buffer =>
      if overlay_buffer.buffer_ ≠ buffer then
        UnRegisterLayerBuffers_scan buffer todo (it + 1) index buffers_ layer
      else
        let overlay_buffer := { overlay_buffer with ref_count_ := overlay_buffer.ref_count_ - 1 }
        let buffers_ := buffers_.set it overlay_buffer
        let layer := layer.MarkBufferReleased
        if overlay_buffer.ref_count_ ≤ 0 then
          match erase_at buffers_ index with
          | none => none
          | some buffers_ => some (buffers_, layer)
        else some (buffers_, layer)

/-- The outer loop of `UnRegisterLayerBuffers`; the layers are passed by
reference, so the loop returns them next to the registry. -/
def UnRegisterLayerBuffers_loop :
    List OverlayLayer → List Buffer → Option (List Buffer × List OverlayLayer)
  | [], buffers_ => some (buffers_, [])
  | layer :: rest, buffers_ =>
    let buffer := layer.GetBuffer
    if buffer = 0 then
      match UnRegisterLayerBuffers_loop rest buffers_ with
      | none => none
      | some (buffers_, rest) => some (buffers_, layer :: rest)
    else
      match UnRegisterLayerBuffers_scan buffer buffers_.length 0 (-1) buffers_ layer with
      | none => none
      | some (buffers_, layer) =>
        match UnRegisterLayerBuffers_loop rest buffers_ with
        | none => none
        | some (buffers_, rest) => some (buffers_, layer :: rest)

def UnRegisterLayerBuffers (m : OverlayBufferManager) (layers : List OverlayLayer) :
    Option (OverlayBufferManager × List OverlayLayer) :=
  match UnRegisterLayerBuffers_loop layers m.buffers_ with
  | none => none
  | some (buffers_, layers) => some ({ m with buffers_ := buffers_ }, layers)

end OverlayBufferManager

namespace ImportedBuffer

/-- `ImportedBuffer::~ImportedBuffer()`, applied to the state of the manager
`buffer_manager_` points to. -/
def destroy (h : ImportedBuffer) (m : OverlayBufferManager) : Option OverlayBufferManager :=
  if h.buffer_ ≠ 0 then m.UnRegisterBuffer h.buffer_ else some m

/-- The destructor with the members of the handle next to the manager state:
the body of `~ImportedBuffer()` calls `UnRegisterBuffer` and assigns no
member, so the handle that comes out is the handle that went in. -/
def release (h : ImportedBuffer) (m : OverlayBufferManager) :
    Option (ImportedBuffer × OverlayBufferManager) :=
  (h.destroy m).map (fun m1 => (h, m1))

end ImportedBuffer

/-! ## Vocabulary of the statements -/

namespace OverlayBufferManager

/-- The identities held by the registry, in registry order. -/
def ids (m : OverlayBufferManager) : List Nat :=
  m.buffers_.map (fun b => b.buffer_)

/-- Some entry of the list matches the identity `X`. -/
def has_id (X : Nat) (buffers_ : List Buffer) : Bool :=
  buffers_.any (fun b => decide (b.buffer_ = X))

/-- Some entry of the registry matches the identity `X`. -/
def has_entry (m : OverlayBufferManager) (X : Nat) : Bool :=
  has_id X m.buffers_

/-- The first entry of the registry that matches `X`. -/
def entry (m : OverlayBufferManager) (X : Nat) : Option Buffer :=
  m.buffers_.find? (fun b => decide (b.buffer_ = X))

/-- The identities of the registry are pairwise distinct. -/
def Distinct (m : OverlayBufferManager) : Prop :=
  m.ids.Nodup

instance (m : OverlayBufferManager) : Decidable (Distinct m) := by
  unfold Distinct; infer_instance

/-- Every entry of the registry has a reference count of at least one. -/
def RefInv (m : OverlayBufferManager) : Prop :=
  ∀ b ∈ m.buffers_, 1 ≤ b.ref_count_

instance (m : OverlayBufferManager) : Decidable (RefInv m) := by
  unfold RefInv; infer_instance

/-- What a scan does to the first entry matching `X`: it replaces the entry by
`f` of it, or drops the entry when `f` gives `none`; all other entries stay. -/
def update_first (X : Nat) (f : Buffer → Option Buffer) : List Buffer → List Buffer
  | [] => []
  | b :: bs =>
    if b.buffer_ ≠ X then b :: update_first X f bs
    else
      match f b with
      | none => bs
      | some b1 => b1 :: bs

/-- The effect of `ref_count_++` on an entry. -/
def incr (b : Buffer) : Option Buffer :=
  some { b with ref_count_ := b.ref_count_ + 1 }

/-- The effect of `ref_count_--` followed by the erase test on an entry. -/
def decr (b : Buffer) : Option Buffer :=
  if b.ref_count_ - 1 ≤ 0 then none else some { b with ref_count_ := b.ref_count_ - 1 }

/-- The effect of `sync_object_.reset(nullptr)` on an entry. -/
def clear_sync (b : Buffer) : Option Buffer :=
  some { b with sync_object_ := none }

/-- One call of the single-buffer reference interface. -/
inductive RefOp where
  | reg
  | unreg
  deriving DecidableEq

/-- Apply a sequence of `RegisterBuffer(A)` / `UnRegisterBuffer(A)` calls. -/
def run_ops (A : Nat) : List RefOp → OverlayBufferManager → Option OverlayBufferManager
  | [], m => some m
  | RefOp.reg :: rest, m => run_ops A rest (m.RegisterBuffer A)
  | RefOp.unreg :: rest, m =>
    match m.UnRegisterBuffer A with
    | none => none
    | some m1 => run_ops A rest m1

/-- Number of `RegisterBuffer` calls minus number of `UnRegisterBuffer` calls. -/
def delta (ops : List RefOp) : Int :=
  (ops.count RefOp.reg : Int) - (ops.count RefOp.unreg : Int)

/-- The net reference count of a created buffer after `ops`: one for the
creation, plus the registrations, minus the unregistrations. -/
def net_count (ops : List RefOp) : Int :=
  1 + (ops.count RefOp.reg : Int) - (ops.count RefOp.unreg : Int)

/-- The running count `c + delta` stays positive after every initial segment
of `ops`, the empty one and `ops` itself included. -/
def stays_positive (c : Int) (ops : List RefOp) : Prop :=
  ∀ k, k ≤ ops.length → 0 < c + delta (ops.take k)

/-- What `UnRegisterLayerBuffers` computes, binding by binding: a binding with a
null buffer is skipped; otherwise the first entry matching its buffer is
decremented (and erased at `<= 0`), and the binding is marked exactly when such
an entry exists. -/
def release_layers : List OverlayLayer → List Buffer → List Buffer × List OverlayLayer
  | [], bs => (bs, [])
  | layer :: rest, bs =>
    if layer.GetBuffer = 0 then
      ((release_layers rest bs).1, layer :: (release_layers rest bs).2)
    else
      ((release_layers rest (update_first layer.GetBuffer decr bs)).1,
       (if has_id layer.GetBuffer bs = true then layer.MarkBufferReleased else layer)
         :: (release_layers rest (update_first layer.GetBuffer decr bs)).2)

/-- The identity `X` is the non-null buffer of a binding of `layers` whose
release fence is ready. -/
def ready_buffer (layers : List OverlayLayer) (X : Nat) : Prop :=
  ∃ layer ∈ layers, layer.GetReleaseFenceState = NativeSync.State.kReady ∧
    layer.GetBuffer ≠ 0 ∧ layer.GetBuffer = X

/-- How an entry `b1` after `SignalBuffersIfReady(layers)` may differ from the
entry `b` before: identity and ref-count are the same, and the sync object is
the same or has been dropped for a ready binding of `layers`. -/
def sync_step (layers : List OverlayLayer) (b b1 : Buffer) : Prop :=
  b1.buffer_ = b.buffer_ ∧ b1.ref_count_ = b.ref_count_ ∧
    (b1.sync_object_ = b.sync_object_ ∨
      (b1.sync_object_ = none ∧ ready_buffer layers b.buffer_))

/-- The call of `erase` that the loop of `UnRegisterBuffer` makes, when it makes
one: the vector at that moment (the matched entry already decremented) and the
index passed to `erase`.  The loop is the one of `UnRegisterBuffer_scan`. -/
def UnRegisterBuffer_erase_call (buffer : Nat) :
    Nat → Nat → Int → List Buffer → Option (List Buffer × Int)
  | 0, _, _, _ => none
  | todo + 1, it, index, buffers_ =>
    let index := index + 1
    match buffers_[it]? with
    | none => none
    | some overlay_buffer =>
      if overlay_buffer.buffer_ ≠ buffer then
        UnRegisterBuffer_erase_call buffer todo (it + 1) index buffers_
      else
        let overlay_buffer := { overlay_buffer with ref_count_ := overlay_buffer.ref_count_ - 1 }
        let buffers_ := buffers_.set it overlay_buffer
        if overlay_buffer.ref_count_ ≤ 0 then some (buffers_, index) else none

/-- The public operations that touch the registry, with their arguments and,
for the two creations, the values the collaborators returned. -/
inductive Op where
  | CreateBuffer (new_buffer : Nat) (init_ok : Bool) (fence : Int)
  | CreateBufferFromNativeHandle (new_buffer : Nat) (init_ok : Bool) (fence : Int)
  | RegisterBuffer (buffer : Nat)
  | RegisterBuffers (buffers : List Nat)
  | UnRegisterBuffer (buffer : Nat)
  | UnRegisterBuffers (buffers : List Nat)
  | SignalBuffersIfReady (layers : List OverlayLayer)
  | UnRegisterLayerBuffers (layers : List OverlayLayer)

/-- The manager state after one public operation. -/
def step (m : OverlayBufferManager) : Op → Option OverlayBufferManager
  | Op.CreateBuffer p ok f => some (m.CreateBuffer p ok f).1
  | Op.CreateBufferFromNativeHandle p ok f => some (m.CreateBufferFromNativeHandle p ok f).1
  | Op.RegisterBuffer X => some (m.RegisterBuffer X)
  | Op.RegisterBuffers Xs => some (m.RegisterBuffers Xs)
  | Op.UnRegisterBuffer X => m.UnRegisterBuffer X
  | Op.UnRegisterBuffers Xs => m.UnRegisterBuffers Xs
  | Op.SignalBuffersIfReady ls => some (m.SignalBuffersIfReady ls)
  | Op.UnRegisterLayerBuffers ls => (m.UnRegisterLayerBuffers ls).map (fun r => r.1)

/-- The allocator hands a creation an identity that no live entry holds. -/
def fresh_for (m : OverlayBufferManager) : Op → Prop
  | Op.CreateBuffer p _ _ => p ∉ m.ids
  | Op.CreateBufferFromNativeHandle p _ _ => p ∉ m.ids
  | _ => True

/-- The states the public operations reach from the empty registry when every
creation obtains a fresh identity. -/
inductive Reachable : OverlayBufferManager → Prop where
  | init : Reachable empty
  | next (m m1 : OverlayBufferManager) (op : Op) :
      Reachable m → fresh_for m op → step m op = some m1 → Reachable m1

end OverlayBufferManager

/-! ## The loops and what they compute -/

namespace OverlayBufferManager

theorem getElem?_mid (pre : List Buffer) (b : Buffer) (t : List Buffer) :
    (pre ++ b :: t)[pre.length]? = some b := by
  induction pre with
  | nil => simp
  | cons a pre ih => simpa using ih

theorem set_mid (pre : List Buffer) (b c : Buffer) (t : List Buffer) :
    (pre ++ b :: t).set pre.length c = pre ++ c :: t := by
  induction pre with
  | nil => rfl
  | cons a pre ih => simp

theorem eraseIdx_mid (pre : List Buffer) (b : Buffer) (t : List Buffer) :
    (pre ++ b :: t).eraseIdx pre.length = pre ++ t := by
  induction pre with
  | nil => rfl
  | cons a pre ih => simpa using ih

theorem erase_at_mid (pre : List Buffer) (b : Buffer) (t : List Buffer) :
    erase_at (pre ++ b :: t) (pre.length : Int) = some (pre ++ t) := by
  unfold erase_at
  have h : (0:Int) ≤ pre.length ∧ (pre.length : Int) < ((pre ++ b :: t).length : Int) := by
    constructor
    · exact Int.natCast_nonneg _
    · simp only [List.length_append, List.length_cons]; push_cast; omega
  rw [if_pos h]
  simp [eraseIdx_mid]

theorem RegisterBuffer_scan_eq (X : Nat) (suf pre : List Buffer) :
    RegisterBuffer_scan X suf.length pre.length (pre ++ suf)
      = pre ++ update_first X incr suf := by
  induction suf generalizing pre with
  | nil => simp [RegisterBuffer_scan, update_first]
  | cons b t ih =>
    simp only [List.length_cons, RegisterBuffer_scan, getElem?_mid]
    by_cases hb : b.buffer_ = X
    · simp [hb, update_first, incr]
    · have h := ih (pre ++ [b])
      simp only [List.length_append, List.length_singleton, List.append_assoc,
        List.singleton_append] at h
      simp [hb, update_first, h]

theorem SignalBuffersIfReady_scan_eq (X : Nat) (suf pre : List Buffer) :
    SignalBuffersIfReady_scan X suf.length pre.length (pre ++ suf)
      = pre ++ update_first X clear_sync suf := by
  induction suf generalizing pre with
  | nil => simp [SignalBuffersIfReady_scan, update_first]
  | cons b t ih =>
    simp only [List.length_cons, SignalBuffersIfReady_scan, getElem?_mid]
    by_cases hb : b.buffer_ = X
    · simp [hb, update_first, clear_sync]
    · have h := ih (pre ++ [b])
      simp only [List.length_append, List.length_singleton, List.append_assoc,
        List.singleton_append] at h
      simp [hb, update_first, h]

theorem UnRegisterBuffer_scan_eq (X : Nat) (suf pre : List Buffer) :
    UnRegisterBuffer_scan X suf.length pre.length ((pre.length : Int) - 1) (pre ++ suf)
      = some (pre ++ update_first X decr suf) := by
  induction suf generalizing pre with
  | nil => simp [UnRegisterBuffer_scan, update_first]
  | cons b t ih =>
    simp only [List.length_cons, UnRegisterBuffer_scan, getElem?_mid, sub_add_cancel]
    by_cases hb : b.buffer_ = X
    · by_cases hc : b.ref_count_ - 1 ≤ 0
      · simp [hb, update_first, decr, hc, erase_at_mid]
      · simp [hb, update_first, decr, hc]
    · have h := ih (pre ++ [b])
      simp only [List.length_append, List.length_singleton, List.append_assoc,
        List.singleton_append, Nat.cast_add, Nat.cast_one, add_sub_cancel_right] at h
      simp [hb, update_first, h]

theorem UnRegisterLayerBuffers_scan_eq (X : Nat) (layer : OverlayLayer)
    (suf pre : List Buffer) :
    UnRegisterLayerBuffers_scan X suf.length pre.length ((pre.length : Int) - 1)
        (pre ++ suf) layer
      = some (pre ++ update_first X decr suf,
          if has_id X suf = true then layer.MarkBufferReleased else layer) := by
  induction suf generalizing pre with
  | nil => simp [UnRegisterLayerBuffers_scan, update_first, has_id]
  | cons b t ih =>
    simp only [List.length_cons, UnRegisterLayerBuffers_scan, getElem?_mid, sub_add_cancel]
    by_cases hb : b.buffer_ = X
    · by_cases hc : b.ref_count_ - 1 ≤ 0
      · simp [hb, update_first, decr, hc, erase_at_mid, has_id]
      · simp [hb, update_first, decr, hc, has_id]
    · have h := ih (pre ++ [b])
      simp only [List.length_append, List.length_singleton, List.append_assoc,
        List.singleton_append, Nat.cast_add, Nat.cast_one, add_sub_cancel_right] at h
      simp [hb, update_first, h, has_id]

theorem RegisterBuffer_eq (m : OverlayBufferManager) (X : Nat) :
    m.RegisterBuffer X = { m with buffers_ := update_first X incr m.buffers_ } := by
  have h := RegisterBuffer_scan_eq X m.buffers_ []
  simp only [List.length_nil, List.nil_append] at h
  simp [RegisterBuffer, h]

theorem UnRegisterBuffer_scan_top (X : Nat) (bs : List Buffer) :
    UnRegisterBuffer_scan X bs.length 0 (-1) bs = some (update_first X decr bs) := by
  have h := UnRegisterBuffer_scan_eq X bs []
  simpa using h

theorem UnRegisterBuffer_eq (m : OverlayBufferManager) (X : Nat) :
    m.UnRegisterBuffer X = some { m with buffers_ := update_first X decr m.buffers_ } := by
  simp [UnRegisterBuffer, UnRegisterBuffer_scan_top]

theorem RegisterBuffers_loop_eq (Xs : List Nat) (bs : List Buffer) :
    RegisterBuffers_loop Xs bs = Xs.foldl (fun acc X => update_first X incr acc) bs := by
  induction Xs generalizing bs with
  | nil => rfl
  | cons X rest ih =>
    have h := RegisterBuffer_scan_eq X bs []
    simp only [List.length_nil, List.nil_append] at h
    simp [RegisterBuffers_loop, h, ih]

theorem UnRegisterBuffers_loop_eq (Xs : List Nat) (bs : List Buffer) :
    UnRegisterBuffers_loop Xs bs
      = some (Xs.foldl (fun acc X => update_first X decr acc) bs) := by
  induction Xs generalizing bs with
  | nil => rfl
  | cons X rest ih => simp [UnRegisterBuffers_loop, UnRegisterBuffer_scan_top, ih]

theorem has_id_eq_false_iff (X : Nat) (bs : List Buffer) :
    has_id X bs = false ↔ ∀ b ∈ bs, b.buffer_ ≠ X := by
  simp [has_id]

theorem has_id_eq_true_iff (X : Nat) (bs : List Buffer) :
    has_id X bs = true ↔ ∃ b ∈ bs, b.buffer_ = X := by
  simp [has_id]

theorem has_id_iff_mem_ids (m : OverlayBufferManager) (X : Nat) :
    m.has_entry X = true ↔ X ∈ m.ids := by
  simp [has_entry, has_id, ids]

theorem update_first_absent (X : Nat) (f : Buffer → Option Buffer) (bs : List Buffer)
    (h : has_id X bs = false) : update_first X f bs = bs := by
  induction bs with
  | nil => rfl
  | cons b t ih =>
    simp only [has_id, List.any_cons, Bool.or_eq_false_iff, decide_eq_false_iff_not] at h
    have ht : has_id X t = false := h.2
    simp [update_first, h.1, ih ht]

theorem update_first_append (X : Nat) (f : Buffer → Option Buffer) (pre suf : List Buffer)
    (h : has_id X pre = false) :
    update_first X f (pre ++ suf) = pre ++ update_first X f suf := by
  induction pre with
  | nil => rfl
  | cons b t ih =>
    simp only [has_id, List.any_cons, Bool.or_eq_false_iff, decide_eq_false_iff_not] at h
    have ht : has_id X t = false := h.2
    simp [update_first, h.1, ih ht]

theorem delta_nil : delta [] = 0 := by simp [delta]

theorem delta_reg (t : List RefOp) : delta (RefOp.reg :: t) = delta t + 1 := by
  simp [delta]; omega

theorem delta_unreg (t : List RefOp) : delta (RefOp.unreg :: t) = delta t - 1 := by
  simp [delta]; omega

theorem net_count_eq (ops : List RefOp) : net_count ops = 1 + delta ops := by
  simp [net_count, delta]; omega

theorem stays_positive_nil (c : Int) : stays_positive c [] ↔ 0 < c := by
  constructor
  · intro h
    have := h 0 (le_refl _)
    simpa [delta_nil] using this
  · intro h k _
    simpa [delta_nil] using h

theorem stays_positive_cons (c : Int) (op : RefOp) (t : List RefOp) :
    stays_positive c (op :: t) ↔ 0 < c ∧ stays_positive (c + delta [op]) t := by
  constructor
  · intro h
    refine ⟨?_, ?_⟩
    · have := h 0 (Nat.zero_le _)
      simpa [delta_nil] using this
    · intro k hk
      have := h (k + 1) (by simpa using hk)
      cases op
      · simp only [List.take_succ_cons, delta_reg, delta_nil] at this ⊢; omega
      · simp only [List.take_succ_cons, delta_unreg, delta_nil] at this ⊢; omega
  · rintro ⟨h0, h⟩ k hk
    cases k with
    | zero => simpa [delta_nil] using h0
    | succ k =>
      have := h k (by simpa using hk)
      cases op
      · simp only [List.take_succ_cons, delta_reg, delta_nil] at this ⊢; omega
      · simp only [List.take_succ_cons, delta_unreg, delta_nil] at this ⊢; omega

theorem run_ops_absent (A : Nat) (ops : List RefOp) (m : OverlayBufferManager)
    (h : has_id A m.buffers_ = false) : run_ops A ops m = some m := by
  induction ops with
  | nil => rfl
  | cons op t ih =>
    cases op
    · simp [run_ops, RegisterBuffer_eq, update_first_absent A _ _ h, ih]
    · simp [run_ops, UnRegisterBuffer_eq, update_first_absent A _ _ h, ih]

theorem run_ops_entry (A : Nat) (pre : List Buffer) (hd : Option Nat) (sy : Option NativeSync)
    (hpre : has_id A pre = false) (ops : List RefOp) :
    ∀ c : Int, 1 ≤ c →
      ∃ m1, run_ops A ops ⟨pre ++ [⟨A, sy, c⟩], hd⟩ = some m1 ∧
        (stays_positive c ops → m1 = ⟨pre ++ [⟨A, sy, c + delta ops⟩], hd⟩) ∧
        (¬ stays_positive c ops → m1 = ⟨pre, hd⟩) := by
  induction ops with
  | nil =>
    intro c hc
    refine ⟨_, rfl, ?_, ?_⟩
    · intro _; simp [delta_nil]
    · intro h; exact absurd ((stays_positive_nil c).2 (by omega)) h
  | cons op t ih =>
    intro c hc
    cases op
    · obtain ⟨m1, h1, h2, h3⟩ := ih (c + 1) (by omega)
      refine ⟨m1, ?_, ?_, ?_⟩
      · simp only [run_ops, RegisterBuffer_eq, update_first_append A _ pre _ hpre]
        simpa [update_first, incr] using h1
      · intro h
        have := ((stays_positive_cons c _ t).1 h).2
        simp only [delta_reg, delta_nil, zero_add] at this
        have e : c + 1 + delta t = c + (delta t + 1) := by omega
        rw [h2 this, delta_reg, e]
      · intro h
        apply h3
        intro h4
        apply h
        rw [stays_positive_cons]
        refine ⟨by omega, ?_⟩
        simpa [delta_reg, delta_nil] using h4
    · by_cases hc1 : c - 1 ≤ 0
      · have hno : ¬ stays_positive c (RefOp.unreg :: t) := by
          intro h
          have := h 1 (by simp)
          simp [delta_unreg, delta_nil] at this
          omega
        refine ⟨⟨pre, hd⟩, ?_, fun h => absurd h hno, fun _ => rfl⟩
        simp only [run_ops, UnRegisterBuffer_eq, update_first_append A _ pre _ hpre]
        simp [update_first, decr, hc1]
        exact run_ops_absent A t ⟨pre, hd⟩ hpre
      · obtain ⟨m1, h1, h2, h3⟩ := ih (c - 1) (by omega)
        refine ⟨m1, ?_, ?_, ?_⟩
        · simp only [run_ops, UnRegisterBuffer_eq, update_first_append A _ pre _ hpre]
          simpa [update_first, decr, hc1] using h1
        · intro h
          have := ((stays_positive_cons c _ t).1 h).2
          simp only [delta_unreg, delta_nil, zero_sub] at this
          have e : c - 1 + delta t = c + (delta t - 1) := by omega
          rw [h2 this, delta_unreg, e]
        · intro h
          apply h3
          intro h4
          apply h
          rw [stays_positive_cons]
          refine ⟨by omega, ?_⟩
          simpa [delta_unreg, delta_nil] using h4

/-! ## C1 -/

/-- C1, the claim as written, at a concrete input: after `CreateBuffer` of the
buffer 1 on the empty registry, the calls `UnRegisterBuffer(1)` then
`RegisterBuffer(1)` leave the registry empty, yet the net count
`1 + 1 - 1` is positive. -/
theorem C1_counterexample :
    Distinct (empty.CreateBuffer 1 true 0).1 ∧
    run_ops 1 [RefOp.unreg, RefOp.reg] (empty.CreateBuffer 1 true 0).1 = some empty ∧
    ¬ (has_entry empty 1 = true ↔ 0 < net_count [RefOp.unreg, RefOp.reg]) := by
  decide

/-- C1, amended: for every sequence of `RegisterBuffer(A)` and
`UnRegisterBuffer(A)` calls applied to a registry with pairwise distinct
identities right after `CreateBuffer` produced `A`, the sequence runs to a
state in which the entry of `A` is present if and only if the net count
`1 + registrations - unregistrations` is positive after every initial
segment of the sequence, the whole sequence included. -/
theorem C1_entry_present_iff_count_stays_positive (s : OverlayBufferManager) (A : Nat)
    (init_ok : Bool) (fence : Int) (ops : List RefOp)
    (hd : Distinct (s.CreateBuffer A init_ok fence).1) :
    ∃ m1, run_ops A ops (s.CreateBuffer A init_ok fence).1 = some m1 ∧
      (has_entry m1 A = true ↔ ∀ k, k ≤ ops.length → 0 < net_count (ops.take k)) := by
  have hfresh : has_id A s.buffers_ = false := by
    rw [has_id_eq_false_iff]
    intro b hb hX
    have hnd : (s.buffers_.map (fun b => b.buffer_) ++ [A]).Nodup := by
      simpa [Distinct, ids, CreateBuffer] using hd
    have := (List.nodup_append.1 hnd).2.2
    exact this (List.mem_map.2 ⟨b, hb, hX⟩) (by simp)
  obtain ⟨m1, h1, h2, h3⟩ :=
    run_ops_entry A s.buffers_ s.buffer_handler_ (some ⟨init_ok⟩) hfresh ops 1 (le_refl _)
  refine ⟨m1, by simpa [CreateBuffer] using h1, ?_⟩
  have hsp : stays_positive 1 ops ↔ ∀ k, k ≤ ops.length → 0 < net_count (ops.take k) := by
    simp only [stays_positive, net_count_eq]
  rw [← hsp]
  by_cases h : stays_positive 1 ops
  · simp only [h, iff_true]
    rw [h2 h]
    simp [has_entry, has_id]
  · simp only [h, iff_false]
    rw [h3 h]
    simpa [has_entry] using hfresh

/-- C1, amended, at a concrete input: buffer 7 created on a registry holding
buffer 3, then registered once and unregistered once. -/
theorem C1_entry_present_iff_count_stays_positive_witness :
    Distinct ((⟨[⟨3, none, 2⟩], none⟩ : OverlayBufferManager).CreateBuffer 7 true 0).1 ∧
    ∃ m1, run_ops 7 [RefOp.reg, RefOp.unreg]
        ((⟨[⟨3, none, 2⟩], none⟩ : OverlayBufferManager).CreateBuffer 7 true 0).1 = some m1 ∧
      (has_entry m1 7 = true ↔
        ∀ k, k ≤ [RefOp.reg, RefOp.unreg].length →
          0 < net_count ([RefOp.reg, RefOp.unreg].take k)) :=
  ⟨by decide,
   C1_entry_present_iff_count_stays_positive ⟨[⟨3, none, 2⟩], none⟩ 7 true 0
     [RefOp.reg, RefOp.unreg] (by decide)⟩

theorem distinct_split (m : OverlayBufferManager) (b : Buffer) (hd : Distinct m)
    (hb : b ∈ m.buffers_) :
    ∃ pre suf, m.buffers_ = pre ++ b :: suf ∧ has_id b.buffer_ pre = false ∧
      has_id b.buffer_ suf = false := by
  obtain ⟨pre, suf, h⟩ := List.append_of_mem hb
  refine ⟨pre, suf, h, ?_, ?_⟩
  · rw [has_id_eq_false_iff]
    intro e he hX
    have hnd : (pre.map (fun b => b.buffer_) ++ (b.buffer_ :: suf.map (fun b => b.buffer_))).Nodup := by
      simpa [Distinct, ids, h] using hd
    exact (List.nodup_append.1 hnd).2.2 (List.mem_map.2 ⟨e, he, hX⟩) (by simp)
  · rw [has_id_eq_false_iff]
    intro e he hX
    have hnd : (pre.map (fun b => b.buffer_) ++ (b.buffer_ :: suf.map (fun b => b.buffer_))).Nodup := by
      simpa [Distinct, ids, h] using hd
    have h2 := (List.nodup_cons.1 (List.nodup_append.1 hnd).2.1).1
    exact h2 (List.mem_map.2 ⟨e, he, hX⟩)

theorem find?_skip (X : Nat) (pre rest : List Buffer) (h : has_id X pre = false) :
    (pre ++ rest).find? (fun b => decide (b.buffer_ = X))
      = rest.find? (fun b => decide (b.buffer_ = X)) := by
  induction pre with
  | nil => rfl
  | cons a t ih =>
    simp only [has_id, List.any_cons, Bool.or_eq_false_iff, decide_eq_false_iff_not] at h
    have ht : has_id X t = false := h.2
    simp [List.find?, h.1, ih ht]

theorem has_id_append (X : Nat) (l1 l2 : List Buffer) :
    has_id X (l1 ++ l2) = (has_id X l1 || has_id X l2) := by
  simp [has_id]

/-! ## C2 -/

/-- C2: in a registry with pairwise distinct identities that holds an entry
`b` for `X` with ref-count `c`, `UnRegisterBuffer(X)` returns a state where,
if `c - 1 > 0`, the entry of `X` is `b` with ref-count `c - 1` and the size is
the same, and, if `c - 1 <= 0`, no entry matches `X` and the registry has
exactly one entry fewer; every entry with another identity is kept. -/
theorem C2_unregister_decrements_or_erases (m : OverlayBufferManager) (X : Nat) (b : Buffer)
    (hd : Distinct m) (hb : b ∈ m.buffers_) (hX : b.buffer_ = X) :
    ∃ m1, m.UnRegisterBuffer X = some m1 ∧
      (0 < b.ref_count_ - 1 →
        entry m1 X = some { b with ref_count_ := b.ref_count_ - 1 } ∧
        m1.buffers_.length = m.buffers_.length) ∧
      (b.ref_count_ - 1 ≤ 0 →
        has_entry m1 X = false ∧ m1.buffers_.length + 1 = m.buffers_.length) ∧
      (∀ e ∈ m.buffers_, e.buffer_ ≠ X → e ∈ m1.buffers_) := by
  obtain ⟨pre, suf, hsplit, hpre, hsuf⟩ := distinct_split m b hd hb
  rw [hX] at hpre hsuf
  refine ⟨_, UnRegisterBuffer_eq m X, ?_, ?_, ?_⟩
  · intro hc
    have hc1 : ¬ b.ref_count_ - 1 ≤ 0 := by omega
    simp only [hsplit, update_first_append X _ pre _ hpre, entry]
    simp [update_first, hX, decr, hc1, find?_skip X pre _ hpre]
  · intro hc
    simp only [hsplit, update_first_append X _ pre _ hpre, has_entry]
    simp [update_first, hX, decr, hc, has_id_append, hpre, hsuf]
    omega
  · intro e he hne
    simp only [hsplit, update_first_append X _ pre _ hpre]
    rw [hsplit] at he
    by_cases hc : b.ref_count_ - 1 ≤ 0
    · simp only [update_first, hX, decr, hc, ne_eq, not_true_eq_false, if_false, if_true,
        List.mem_append]
      rcases List.mem_append.1 he with h | h
      · exact Or.inl h
      · rcases List.mem_cons.1 h with h | h
        · exact absurd (h ▸ hX) hne
        · exact Or.inr h
    · simp only [update_first, hX, decr, hc, ne_eq, not_true_eq_false, if_false,
        List.mem_append, List.mem_cons]
      rcases List.mem_append.1 he with h | h
      · exact Or.inl h
      · rcases List.mem_cons.1 h with h | h
        · exact absurd (h ▸ hX) hne
        · exact Or.inr (Or.inr h)

/-- C2 at a concrete input: the entry of buffer 5 with ref-count 2, between two
other entries. -/
theorem C2_unregister_decrements_or_erases_witness :
    ∃ m1, (⟨[⟨4, none, 1⟩, ⟨5, none, 2⟩, ⟨6, none, 1⟩], none⟩ :
        OverlayBufferManager).UnRegisterBuffer 5 = some m1 ∧
      (0 < (⟨5, none, 2⟩ : Buffer).ref_count_ - 1 →
        entry m1 5 = some { (⟨5, none, 2⟩ : Buffer) with
          ref_count_ := (⟨5, none, 2⟩ : Buffer).ref_count_ - 1 } ∧
        m1.buffers_.length
          = (⟨[⟨4, none, 1⟩, ⟨5, none, 2⟩, ⟨6, none, 1⟩], none⟩ :
              OverlayBufferManager).buffers_.length) ∧
      ((⟨5, none, 2⟩ : Buffer).ref_count_ - 1 ≤ 0 →
        has_entry m1 5 = false ∧
        m1.buffers_.length + 1
          = (⟨[⟨4, none, 1⟩, ⟨5, none, 2⟩, ⟨6, none, 1⟩], none⟩ :
              OverlayBufferManager).buffers_.length) ∧
      (∀ e ∈ (⟨[⟨4, none, 1⟩, ⟨5, none, 2⟩, ⟨6, none, 1⟩], none⟩ :
          OverlayBufferManager).buffers_, e.buffer_ ≠ 5 → e ∈ m1.buffers_) :=
  C2_unregister_decrements_or_erases ⟨[⟨4, none, 1⟩, ⟨5, none, 2⟩, ⟨6, none, 1⟩], none⟩ 5
    ⟨5, none, 2⟩ (by decide) (by decide) rfl

/-! ## C3 -/

/-- C3: for every registry `s` and every fresh identity `A` (what
`new OverlayBuffer()` returns: not null, and held by no entry of `s`),
`CreateBuffer` returns a handle for `A`, the entry of `A` is present, and the
destructor of the handle, run once, gives back exactly `s`, in which no entry
matches `A`. -/
theorem C3_single_release_undoes_creation (s : OverlayBufferManager) (A : Nat)
    (init_ok : Bool) (fence : Int) (hA : A ≠ 0) (hfresh : has_entry s A = false) :
    (s.CreateBuffer A init_ok fence).2.buffer_ = A ∧
    has_entry (s.CreateBuffer A init_ok fence).1 A = true ∧
    ∃ m1, (s.CreateBuffer A init_ok fence).2.destroy (s.CreateBuffer A init_ok fence).1
        = some m1 ∧ has_entry m1 A = false ∧ m1 = s := by
  refine ⟨rfl, ?_, s, ?_, hfresh, rfl⟩
  · simp [CreateBuffer, has_entry, has_id]
  · have h : has_id A s.buffers_ = false := hfresh
    simp only [ImportedBuffer.destroy, CreateBuffer, ne_eq, hA, not_false_eq_true, if_true,
      UnRegisterBuffer_eq, update_first_append A _ s.buffers_ _ h]
    simp [update_first, decr]

/-- C3 at a concrete input: buffer 9 created on a registry that holds buffer 3. -/
theorem C3_single_release_undoes_creation_witness :
    ((⟨[⟨3, none, 2⟩], none⟩ : OverlayBufferManager).CreateBuffer 9 false 0).2.buffer_ = 9 ∧
    has_entry ((⟨[⟨3, none, 2⟩], none⟩ : OverlayBufferManager).CreateBuffer 9 false 0).1 9
      = true ∧
    ∃ m1, ((⟨[⟨3, none, 2⟩], none⟩ : OverlayBufferManager).CreateBuffer 9 false 0).2.destroy
        ((⟨[⟨3, none, 2⟩], none⟩ : OverlayBufferManager).CreateBuffer 9 false 0).1 = some m1 ∧
      has_entry m1 9 = false ∧ m1 = ⟨[⟨3, none, 2⟩], none⟩ :=
  C3_single_release_undoes_creation ⟨[⟨3, none, 2⟩], none⟩ 9 false 0 (by decide) (by decide)

theorem UnRegisterLayerBuffers_scan_top (X : Nat) (layer : OverlayLayer) (bs : List Buffer) :
    UnRegisterLayerBuffers_scan X bs.length 0 (-1) bs layer
      = some (update_first X decr bs,
          if has_id X bs = true then layer.MarkBufferReleased else layer) := by
  have h := UnRegisterLayerBuffers_scan_eq X layer bs []
  simpa using h

theorem UnRegisterLayerBuffers_loop_eq (layers : List OverlayLayer) (bs : List Buffer) :
    UnRegisterLayerBuffers_loop layers bs = some (release_layers layers bs) := by
  induction layers generalizing bs with
  | nil => rfl
  | cons layer rest ih =>
    by_cases h0 : layer.GetBuffer = 0
    · simp [UnRegisterLayerBuffers_loop, release_layers, h0, ih]
    · simp [UnRegisterLayerBuffers_loop, release_layers, h0, ih,
        UnRegisterLayerBuffers_scan_top]

theorem UnRegisterLayerBuffers_eq (m : OverlayBufferManager) (layers : List OverlayLayer) :
    m.UnRegisterLayerBuffers layers
      = some ({ m with buffers_ := (release_layers layers m.buffers_).1 },
              (release_layers layers m.buffers_).2) := by
  simp [UnRegisterLayerBuffers, UnRegisterLayerBuffers_loop_eq]

/-! ## C4 -/

/-- C4, the claim as written, at a concrete input: the registry holds buffer
10 with ref-count 1 and two bindings name buffer 10.  The first binding
erases the entry; the second one, whose buffer is not null, finds no entry
and is not marked released when the call returns. -/
theorem C4_counterexample :
    (⟨[⟨10, none, 1⟩], none⟩ : OverlayBufferManager).UnRegisterLayerBuffers
        [⟨NativeSync.State.kReady, 10, false⟩, ⟨NativeSync.State.kReady, 10, false⟩]
      = some (⟨[], none⟩,
          [⟨NativeSync.State.kReady, 10, true⟩, ⟨NativeSync.State.kReady, 10, false⟩]) ∧
    ¬ (∀ layer ∈ [(⟨NativeSync.State.kReady, 10, true⟩ : OverlayLayer),
          ⟨NativeSync.State.kReady, 10, false⟩],
        layer.GetBuffer ≠ 0 → layer.buffer_released_ = true) := by
  decide

/-- C4, amended: `UnRegisterLayerBuffers` always returns, and it handles the
bindings in order.  A binding whose `GetBuffer()` is not null and matches an
entry of the registry at that moment gets exactly one `UnRegisterBuffer` of
that buffer (one decrement, erase at `<= 0`) and is marked released, however
many bindings name the same identity; a binding whose buffer is null or
matches no entry at that moment changes nothing and is not marked. -/
theorem C4_layer_bindings_release_while_entry_lasts (m : OverlayBufferManager)
    (layer : OverlayLayer) (rest : List OverlayLayer) :
    m.UnRegisterLayerBuffers [] = some (m, []) ∧
    (∃ r, m.UnRegisterLayerBuffers (layer :: rest) = some r) ∧
    m.UnRegisterLayerBuffers (layer :: rest) =
      if layer.GetBuffer ≠ 0 ∧ has_entry m layer.GetBuffer = true then
        (m.UnRegisterBuffer layer.GetBuffer).bind (fun m1 =>
          (m1.UnRegisterLayerBuffers rest).map
            (fun r => (r.1, layer.MarkBufferReleased :: r.2)))
      else
        (m.UnRegisterLayerBuffers rest).map (fun r => (r.1, layer :: r.2)) := by
  refine ⟨rfl, ⟨_, UnRegisterLayerBuffers_eq m _⟩, ?_⟩
  by_cases h0 : layer.GetBuffer = 0
  · simp [UnRegisterLayerBuffers_eq, release_layers, h0]
  · by_cases hh : has_id layer.GetBuffer m.buffers_ = true
    · simp [UnRegisterLayerBuffers_eq, UnRegisterBuffer_eq, release_layers, h0, hh, has_entry]
    · have hf : has_id layer.GetBuffer m.buffers_ = false := by simpa using hh
      simp [UnRegisterLayerBuffers_eq, release_layers, h0, hf, has_entry,
        update_first_absent _ _ _ hf]

theorem SignalBuffersIfReady_scan_top (X : Nat) (bs : List Buffer) :
    SignalBuffersIfReady_scan X bs.length 0 bs = update_first X clear_sync bs := by
  have h := SignalBuffersIfReady_scan_eq X bs []
  simpa using h

theorem RegisterBuffer_scan_top (X : Nat) (bs : List Buffer) :
    RegisterBuffer_scan X bs.length 0 bs = update_first X incr bs := by
  have h := RegisterBuffer_scan_eq X bs []
  simpa using h

theorem mem_update_first (X : Nat) (f : Buffer → Option Buffer) (bs : List Buffer) (e : Buffer)
    (he : e ∈ update_first X f bs) :
    e ∈ bs ∨ ∃ b ∈ bs, b.buffer_ = X ∧ f b = some e := by
  induction bs with
  | nil => simp [update_first] at he
  | cons a t ih =>
    by_cases ha : a.buffer_ = X
    · cases hf : f a with
      | none =>
        simp only [update_first, ha, ne_eq, not_true_eq_false, if_false, hf] at he
        exact Or.inl (List.mem_cons_of_mem _ he)
      | some a1 =>
        simp only [update_first, ha, ne_eq, not_true_eq_false, if_false, hf,
          List.mem_cons] at he
        rcases he with h | h
        · exact Or.inr ⟨a, List.mem_cons_self _ _, ha, by rw [hf, h]⟩
        · exact Or.inl (List.mem_cons_of_mem _ h)
    · simp only [update_first, ne_eq, ha, not_false_eq_true, if_true, List.mem_cons] at he
      rcases he with h | h
      · exact Or.inl (h ▸ List.mem_cons_self _ _)
      · rcases ih h with h1 | ⟨b, hb, hbX, hfb⟩
        · exact Or.inl (List.mem_cons_of_mem _ h1)
        · exact Or.inr ⟨b, List.mem_cons_of_mem _ hb, hbX, hfb⟩

theorem update_first_ids_sublist (X : Nat) (f : Buffer → Option Buffer)
    (hf : ∀ b b1, f b = some b1 → b1.buffer_ = b.buffer_) (bs : List Buffer) :
    ((update_first X f bs).map (fun b => b.buffer_)).Sublist (bs.map (fun b => b.buffer_)) := by
  induction bs with
  | nil => simp [update_first]
  | cons a t ih =>
    by_cases ha : a.buffer_ = X
    · cases hfa : f a with
      | none =>
        simp only [update_first, ha, ne_eq, not_true_eq_false, if_false, hfa, List.map_cons]
        exact List.sublist_cons_self _ _
      | some a1 =>
        simp only [update_first, ha, ne_eq, not_true_eq_false, if_false, hfa, List.map_cons]
        rw [hf a a1 hfa, ha]
    · simp only [update_first, ne_eq, ha, not_false_eq_true, if_true, List.map_cons]
      exact ih.cons₂ _

theorem incr_id (b b1 : Buffer) (h : incr b = some b1) : b1.buffer_ = b.buffer_ := by
  simp only [incr, Option.some.injEq] at h
  rw [← h]

theorem decr_id (b b1 : Buffer) (h : decr b = some b1) : b1.buffer_ = b.buffer_ := by
  unfold decr at h
  split at h
  · exact absurd h (by simp)
  · simp only [Option.some.injEq] at h
    rw [← h]

theorem clear_sync_id (b b1 : Buffer) (h : clear_sync b = some b1) :
    b1.buffer_ = b.buffer_ := by
  simp only [clear_sync, Option.some.injEq] at h
  rw [← h]

theorem loops_preserve (Q : List Buffer → Prop)
    (hQ : ∀ X bs, Q bs → Q (update_first X incr bs) ∧ Q (update_first X decr bs) ∧
      Q (update_first X clear_sync bs)) :
    (∀ (Xs : List Nat) (bs : List Buffer), Q bs → Q (RegisterBuffers_loop Xs bs)) ∧
    (∀ (Xs : List Nat) (bs : List Buffer),
      Q bs → Q (Xs.foldl (fun acc X => update_first X decr acc) bs)) ∧
    (∀ (ls : List OverlayLayer) (bs : List Buffer), Q bs → Q (SignalBuffersIfReady_loop ls bs)) ∧
    (∀ (ls : List OverlayLayer) (bs : List Buffer), Q bs → Q (release_layers ls bs).1) := by
  refine ⟨?_, ?_, ?_, ?_⟩
  · intro Xs
    induction Xs with
    | nil => intro bs h; exact h
    | cons X t ih =>
      intro bs h
      simp only [RegisterBuffers_loop, RegisterBuffer_scan_top]
      exact ih _ (hQ X bs h).1
  · intro Xs
    induction Xs with
    | nil => intro bs h; exact h
    | cons X t ih =>
      intro bs h
      simp only [List.foldl_cons]
      exact ih _ (hQ X bs h).2.1
  · intro ls
    induction ls with
    | nil => intro bs h; exact h
    | cons l t ih =>
      intro bs h
      simp only [SignalBuffersIfReady_loop, SignalBuffersIfReady_scan_top]
      split
      · exact ih _ h
      · split
        · exact ih _ h
        · exact ih _ (hQ _ bs h).2.2
  · intro ls
    induction ls with
    | nil => intro bs h; exact h
    | cons l t ih =>
      intro bs h
      simp only [release_layers]
      split
      · exact ih _ h
      · exact ih _ (hQ _ bs h).2.1

theorem ref_inv_update (X : Nat) (bs : List Buffer) (h : ∀ b ∈ bs, 1 ≤ b.ref_count_) :
    (∀ b ∈ update_first X incr bs, 1 ≤ b.ref_count_) ∧
    (∀ b ∈ update_first X decr bs, 1 ≤ b.ref_count_) ∧
    (∀ b ∈ update_first X clear_sync bs, 1 ≤ b.ref_count_) := by
  refine ⟨?_, ?_, ?_⟩
  · intro e he
    rcases mem_update_first X _ bs e he with h1 | ⟨b, hb, _, hfb⟩
    · exact h e h1
    · simp only [incr, Option.some.injEq] at hfb
      have := h b hb
      rw [← hfb]
      show 1 ≤ b.ref_count_ + 1
      omega
  · intro e he
    rcases mem_update_first X _ bs e he with h1 | ⟨b, hb, _, hfb⟩
    · exact h e h1
    · unfold decr at hfb
      split at hfb
      · exact absurd hfb (by simp)
      · simp only [Option.some.injEq] at hfb
        rw [← hfb]
        show 1 ≤ b.ref_count_ - 1
        omega
  · intro e he
    rcases mem_update_first X _ bs e he with h1 | ⟨b, hb, _, hfb⟩
    · exact h e h1
    · simp only [clear_sync, Option.some.injEq] at hfb
      rw [← hfb]
      exact h b hb

/-! ## C5 -/

/-- C5: every entry has `ref_count_ >= 1` in the empty registry, and each of
`CreateBuffer`, `CreateBufferFromNativeHandle`, `RegisterBuffer`,
`RegisterBuffers`, `UnRegisterBuffer`, `UnRegisterBuffers`,
`SignalBuffersIfReady` and `UnRegisterLayerBuffers`, whatever its arguments,
returns a state with that property when started in a state that has it. -/
theorem C5_ref_count_at_least_one (m : OverlayBufferManager) (op : Op) (h : RefInv m) :
    RefInv empty ∧ ∃ m1, step m op = some m1 ∧ RefInv m1 := by
  refine ⟨by intro b hb; simp [empty] at hb, ?_⟩
  obtain ⟨hR, hU, hS, hL⟩ := loops_preserve (fun bs => ∀ b ∈ bs, 1 ≤ b.ref_count_)
    (fun X bs hbs => ref_inv_update X bs hbs)
  cases op with
  | CreateBuffer p ok f =>
    refine ⟨_, rfl, ?_⟩
    intro b hb
    simp only [CreateBuffer, List.mem_append, List.mem_singleton] at hb
    rcases hb with hb | hb
    · exact h b hb
    · rw [hb]
  | CreateBufferFromNativeHandle p ok f =>
    refine ⟨_, rfl, ?_⟩
    intro b hb
    simp only [CreateBufferFromNativeHandle, List.mem_append, List.mem_singleton] at hb
    rcases hb with hb | hb
    · exact h b hb
    · rw [hb]
  | RegisterBuffer X =>
    refine ⟨_, rfl, ?_⟩
    rw [RegisterBuffer_eq]
    exact (ref_inv_update X m.buffers_ h).1
  | RegisterBuffers Xs => exact ⟨_, rfl, hR Xs m.buffers_ h⟩
  | UnRegisterBuffer X =>
    refine ⟨_, UnRegisterBuffer_eq m X, ?_⟩
    exact (ref_inv_update X m.buffers_ h).2.1
  | UnRegisterBuffers Xs =>
    refine ⟨{ m with buffers_ := Xs.foldl (fun acc X => update_first X decr acc) m.buffers_ },
      ?_, hU Xs m.buffers_ h⟩
    simp [step, UnRegisterBuffers, UnRegisterBuffers_loop_eq]
  | SignalBuffersIfReady ls => exact ⟨_, rfl, hS ls m.buffers_ h⟩
  | UnRegisterLayerBuffers ls =>
    refine ⟨{ m with buffers_ := (release_layers ls m.buffers_).1 }, ?_, hL ls m.buffers_ h⟩
    simp [step, UnRegisterLayerBuffers_eq]

/-- C5 at a concrete input: a batch unregister that erases one entry and keeps
another. -/
theorem C5_ref_count_at_least_one_witness :
    RefInv ⟨[⟨1, none, 1⟩, ⟨2, none, 3⟩], none⟩ ∧
    (RefInv empty ∧
      ∃ m1, step ⟨[⟨1, none, 1⟩, ⟨2, none, 3⟩], none⟩ (Op.UnRegisterBuffers [1, 2, 1])
          = some m1 ∧ RefInv m1) :=
  ⟨by decide,
   C5_ref_count_at_least_one ⟨[⟨1, none, 1⟩, ⟨2, none, 3⟩], none⟩
     (Op.UnRegisterBuffers [1, 2, 1]) (by decide)⟩

theorem distinct_update (X : Nat) (bs : List Buffer)
    (h : (bs.map (fun b => b.buffer_)).Nodup) :
    ((update_first X incr bs).map (fun b => b.buffer_)).Nodup ∧
    ((update_first X decr bs).map (fun b => b.buffer_)).Nodup ∧
    ((update_first X clear_sync bs).map (fun b => b.buffer_)).Nodup :=
  ⟨h.sublist (update_first_ids_sublist X incr incr_id bs),
   h.sublist (update_first_ids_sublist X decr decr_id bs),
   h.sublist (update_first_ids_sublist X clear_sync clear_sync_id bs)⟩

theorem step_distinct (m m1 : OverlayBufferManager) (op : Op) (h : Distinct m)
    (hf : fresh_for m op) (hs : step m op = some m1) : Distinct m1 := by
  obtain ⟨hR, hU, hS, hL⟩ := loops_preserve (fun bs => (bs.map (fun b => b.buffer_)).Nodup)
    (fun X bs hbs => distinct_update X bs hbs)
  have h0 : (m.buffers_.map (fun b => b.buffer_)).Nodup := h
  cases op with
  | CreateBuffer p ok f =>
    simp only [step, Option.some.injEq] at hs
    rw [← hs]
    simp only [Distinct, ids, CreateBuffer, List.map_append, List.map_cons, List.map_nil]
    have hp : p ∉ m.buffers_.map (fun b => b.buffer_) := hf
    exact List.nodup_append.2 ⟨h0, List.nodup_singleton _, by
      intro a ha hb
      rw [List.mem_singleton.1 hb] at ha
      exact hp ha⟩
  | CreateBufferFromNativeHandle p ok f =>
    simp only [step, Option.some.injEq] at hs
    rw [← hs]
    simp only [Distinct, ids, CreateBufferFromNativeHandle, List.map_append, List.map_cons,
      List.map_nil]
    have hp : p ∉ m.buffers_.map (fun b => b.buffer_) := hf
    exact List.nodup_append.2 ⟨h0, List.nodup_singleton _, by
      intro a ha hb
      rw [List.mem_singleton.1 hb] at ha
      exact hp ha⟩
  | RegisterBuffer X =>
    simp only [step, Option.some.injEq, RegisterBuffer_eq] at hs
    rw [← hs]
    exact (distinct_update X m.buffers_ h0).1
  | RegisterBuffers Xs =>
    simp only [step, Option.some.injEq] at hs
    rw [← hs]
    exact hR Xs m.buffers_ h0
  | UnRegisterBuffer X =>
    simp only [step, Option.some.injEq, UnRegisterBuffer_eq] at hs
    rw [← hs]
    exact (distinct_update X m.buffers_ h0).2.1
  | UnRegisterBuffers Xs =>
    simp only [step, UnRegisterBuffers, UnRegisterBuffers_loop_eq, Option.some.injEq] at hs
    rw [← hs]
    exact hU Xs m.buffers_ h0
  | SignalBuffersIfReady ls =>
    simp only [step, Option.some.injEq] at hs
    rw [← hs]
    exact hS ls m.buffers_ h0
  | UnRegisterLayerBuffers ls =>
    simp only [step, UnRegisterLayerBuffers_eq, Option.map_some', Option.some.injEq] at hs
    rw [← hs]
    exact hL ls m.buffers_ h0

theorem matches_le_one (bs : List Buffer) (h : (bs.map (fun b => b.buffer_)).Nodup) (X : Nat) :
    (bs.filter (fun b => decide (b.buffer_ = X))).length ≤ 1 := by
  induction bs with
  | nil => simp
  | cons a t ih =>
    have hnd : a.buffer_ ∉ t.map (fun b => b.buffer_) ∧ (t.map (fun b => b.buffer_)).Nodup :=
      List.nodup_cons.1 h
    by_cases ha : a.buffer_ = X
    · have hno : ∀ b ∈ t, ¬ b.buffer_ = X := by
        intro b hb hbX
        exact hnd.1 (List.mem_map.2 ⟨b, hb, hbX.trans ha.symm⟩)
      have : t.filter (fun b => decide (b.buffer_ = X)) = [] := by
        rw [List.filter_eq_nil_iff]
        intro b hb
        simpa using hno b hb
      simp [List.filter, ha, this]
    · simpa [List.filter, ha] using ih hnd.2

/-! ## C6 -/

/-- C6: every state reached from the empty registry by `CreateBuffer`,
`CreateBufferFromNativeHandle`, `RegisterBuffer(s)`, `UnRegisterBuffer(s)`,
`SignalBuffersIfReady` and `UnRegisterLayerBuffers`, each creation obtaining
an identity held by no current entry, has pairwise distinct entry identities:
at most one entry matches any given identity. -/
theorem C6_reachable_identities_distinct (m : OverlayBufferManager) (h : Reachable m) :
    Distinct m ∧ ∀ X, (m.buffers_.filter (fun b => decide (b.buffer_ = X))).length ≤ 1 := by
  have hd : Distinct m := by
    induction h with
    | init => exact List.nodup_nil
    | next m m1 op _ hf hs ih => exact step_distinct m m1 op ih hf hs
  exact ⟨hd, matches_le_one m.buffers_ hd⟩

/-- C6 at a concrete input: two creations, a registration and an unregistration
of the first buffer. -/
theorem C6_reachable_identities_distinct_witness :
    Reachable ⟨[⟨1, some ⟨true⟩, 1⟩, ⟨2, some ⟨false⟩, 1⟩], none⟩ ∧
    (Distinct ⟨[⟨1, some ⟨true⟩, 1⟩, ⟨2, some ⟨false⟩, 1⟩], none⟩ ∧
      ∀ X, ((⟨[⟨1, some ⟨true⟩, 1⟩, ⟨2, some ⟨false⟩, 1⟩], none⟩ :
        OverlayBufferManager).buffers_.filter (fun b => decide (b.buffer_ = X))).length ≤ 1) :=
  have h1 : Reachable ⟨[⟨1, some ⟨true⟩, 1⟩], none⟩ :=
    Reachable.next empty _ (Op.CreateBuffer 1 true 0) Reachable.init
      (by simp [fresh_for, ids, empty]) rfl
  have h2 : Reachable ⟨[⟨1, some ⟨true⟩, 1⟩, ⟨2, some ⟨false⟩, 1⟩], none⟩ :=
    Reachable.next _ _ (Op.CreateBufferFromNativeHandle 2 false 0) h1
      (by simp [fresh_for, ids]) rfl
  have h3 : Reachable ⟨[⟨1, some ⟨true⟩, 2⟩, ⟨2, some ⟨false⟩, 1⟩], none⟩ :=
    Reachable.next _ _ (Op.RegisterBuffer 1) h2 (by trivial) (by decide)
  have h4 : Reachable ⟨[⟨1, some ⟨true⟩, 1⟩, ⟨2, some ⟨false⟩, 1⟩], none⟩ :=
    Reachable.next _ _ (Op.UnRegisterBuffer 1) h3 (by trivial) (by decide)
  ⟨h4, C6_reachable_identities_distinct _ h4⟩

theorem foldl_update_absent (f : Buffer → Option Buffer) (Xs : List Nat) (bs : List Buffer)
    (h : ∀ Y ∈ Xs, has_id Y bs = false) :
    Xs.foldl (fun acc X => update_first X f acc) bs = bs := by
  induction Xs with
  | nil => rfl
  | cons X t ih =>
    simp only [List.foldl_cons, update_first_absent X f bs (h X (List.mem_cons_self _ _))]
    exact ih (fun Y hY => h Y (List.mem_cons_of_mem _ hY))

/-! ## C7 -/

/-- C7: when no entry matches `X`, `RegisterBuffer(X)` and
`UnRegisterBuffer(X)` return the state they were given, entry for entry; so do
`RegisterBuffers` and `UnRegisterBuffers` on a batch of identities none of
which matches an entry.  The unregister calls return normally. -/
theorem C7_unknown_identity_is_ignored (m : OverlayBufferManager) (X : Nat) (batch : List Nat)
    (hX : has_entry m X = false) (hbatch : ∀ Y ∈ batch, has_entry m Y = false) :
    m.RegisterBuffer X = m ∧ m.UnRegisterBuffer X = some m ∧
    m.RegisterBuffers batch = m ∧ m.UnRegisterBuffers batch = some m := by
  have h1 : has_id X m.buffers_ = false := hX
  have h2 : ∀ Y ∈ batch, has_id Y m.buffers_ = false := hbatch
  refine ⟨?_, ?_, ?_, ?_⟩
  · rw [RegisterBuffer_eq, update_first_absent X _ _ h1]
  · rw [UnRegisterBuffer_eq, update_first_absent X _ _ h1]
  · simp only [RegisterBuffers, RegisterBuffers_loop_eq, foldl_update_absent incr batch _ h2]
  · simp only [UnRegisterBuffers, UnRegisterBuffers_loop_eq,
      foldl_update_absent decr batch _ h2]

/-- C7 at a concrete input: buffer 8 and the batch `[8, 9, 8]` on a registry
that holds buffers 1 and 2. -/
theorem C7_unknown_identity_is_ignored_witness :
    (⟨[⟨1, none, 1⟩, ⟨2, some ⟨true⟩, 3⟩], none⟩ : OverlayBufferManager).RegisterBuffer 8
      = ⟨[⟨1, none, 1⟩, ⟨2, some ⟨true⟩, 3⟩], none⟩ ∧
    (⟨[⟨1, none, 1⟩, ⟨2, some ⟨true⟩, 3⟩], none⟩ : OverlayBufferManager).UnRegisterBuffer 8
      = some ⟨[⟨1, none, 1⟩, ⟨2, some ⟨true⟩, 3⟩], none⟩ ∧
    (⟨[⟨1, none, 1⟩, ⟨2, some ⟨true⟩, 3⟩], none⟩ : OverlayBufferManager).RegisterBuffers
      [8, 9, 8] = ⟨[⟨1, none, 1⟩, ⟨2, some ⟨true⟩, 3⟩], none⟩ ∧
    (⟨[⟨1, none, 1⟩, ⟨2, some ⟨true⟩, 3⟩], none⟩ : OverlayBufferManager).UnRegisterBuffers
      [8, 9, 8] = some ⟨[⟨1, none, 1⟩, ⟨2, some ⟨true⟩, 3⟩], none⟩ :=
  C7_unknown_identity_is_ignored ⟨[⟨1, none, 1⟩, ⟨2, some ⟨true⟩, 3⟩], none⟩ 8 [8, 9, 8]
    (by decide) (by decide)

theorem filterMap_congr_mem (f g : Buffer → Option Buffer) (bs : List Buffer)
    (h : ∀ b ∈ bs, f b = g b) : bs.filterMap f = bs.filterMap g := by
  induction bs with
  | nil => rfl
  | cons a t ih =>
    have ha := h a (List.mem_cons_self _ _)
    have ht := ih (fun b hb => h b (List.mem_cons_of_mem _ hb))
    simp [List.filterMap_cons, ha, ht]

theorem update_first_eq_filterMap (X : Nat) (f : Buffer → Option Buffer) (bs : List Buffer)
    (h : (bs.map (fun b => b.buffer_)).Nodup) :
    update_first X f bs = bs.filterMap (fun b => if b.buffer_ = X then f b else some b) := by
  induction bs with
  | nil => rfl
  | cons a t ih =>
    have hnd : a.buffer_ ∉ t.map (fun b => b.buffer_) ∧ (t.map (fun b => b.buffer_)).Nodup :=
      List.nodup_cons.1 h
    by_cases ha : a.buffer_ = X
    · have hno : ∀ b ∈ t, (if b.buffer_ = X then f b else some b) = some b := by
        intro b hb
        have : b.buffer_ ≠ X := fun hbX =>
          hnd.1 (List.mem_map.2 ⟨b, hb, hbX.trans ha.symm⟩)
        simp [this]
      have ht : t.filterMap (fun b => if b.buffer_ = X then f b else some b) = t := by
        rw [filterMap_congr_mem _ some t hno]
        simp
      cases hfa : f a with
      | none => simp [update_first, ha, hfa, List.filterMap_cons, ht]
      | some a1 => simp [update_first, ha, hfa, List.filterMap_cons, ht]
    · simp [update_first, ha, List.filterMap_cons, ih hnd.2]

theorem RegisterBuffers_loop_counts (Xs : List Nat) :
    ∀ bs : List Buffer, (bs.map (fun b => b.buffer_)).Nodup →
      RegisterBuffers_loop Xs bs
        = bs.map (fun b => { b with ref_count_ := b.ref_count_ + (Xs.count b.buffer_ : Int) }) := by
  induction Xs with
  | nil =>
    intro bs _
    simp [RegisterBuffers_loop]
  | cons X t ih =>
    intro bs h
    simp only [RegisterBuffers_loop, RegisterBuffer_scan_top]
    rw [ih _ (distinct_update X bs h).1, update_first_eq_filterMap X incr bs h]
    rw [← List.filterMap_eq_map, ← List.filterMap_eq_map, List.filterMap_filterMap]
    apply filterMap_congr_mem
    intro b _
    by_cases hb : b.buffer_ = X
    · simp [hb, incr, List.count_cons]
      omega
    · have hb2 : ¬ X = b.buffer_ := fun e => hb e.symm
      simp [hb, hb2, List.count_cons]

/-! ## C8 -/

/-- C8: on a registry with pairwise distinct identities, `RegisterBuffers`
with any batch (duplicates allowed) adds to the ref-count of each entry the
number of occurrences of its identity in the batch, and changes nothing else:
same entries, same order, same identities and sync objects. -/
theorem C8_register_batch_adds_occurrences (m : OverlayBufferManager) (batch : List Nat)
    (hd : Distinct m) :
    m.RegisterBuffers batch =
      { m with buffers_ := m.buffers_.map (fun b =>
          { b with ref_count_ := b.ref_count_ + (batch.count b.buffer_ : Int) }) } := by
  simp only [RegisterBuffers, RegisterBuffers_loop_counts batch m.buffers_ hd]

/-- C8 at a concrete input: the batch `[2, 1, 2, 7, 2]` on buffers 1 and 2. -/
theorem C8_register_batch_adds_occurrences_witness :
    (⟨[⟨1, none, 1⟩, ⟨2, some ⟨true⟩, 3⟩], none⟩ : OverlayBufferManager).RegisterBuffers
        [2, 1, 2, 7, 2] =
      { (⟨[⟨1, none, 1⟩, ⟨2, some ⟨true⟩, 3⟩], none⟩ : OverlayBufferManager) with
        buffers_ := (⟨[⟨1, none, 1⟩, ⟨2, some ⟨true⟩, 3⟩], none⟩ :
          OverlayBufferManager).buffers_.map (fun b =>
            { b with ref_count_ :=
                b.ref_count_ + (([2, 1, 2, 7, 2] : List Nat).count b.buffer_ : Int) }) } :=
  C8_register_batch_adds_occurrences ⟨[⟨1, none, 1⟩, ⟨2, some ⟨true⟩, 3⟩], none⟩
    [2, 1, 2, 7, 2] (by decide)

theorem UnRegisterBuffers_fold_counts (Xs : List Nat) :
    ∀ bs : List Buffer, (bs.map (fun b => b.buffer_)).Nodup → (∀ b ∈ bs, 1 ≤ b.ref_count_) →
      Xs.foldl (fun acc X => update_first X decr acc) bs
        = bs.filterMap (fun b =>
            if (Xs.count b.buffer_ : Int) < b.ref_count_ then
              some { b with ref_count_ := b.ref_count_ - (Xs.count b.buffer_ : Int) }
            else none) := by
  induction Xs with
  | nil =>
    intro bs _ hr
    have h : ∀ b ∈ bs, (if ((([] : List Nat).count b.buffer_ : Nat) : Int) < b.ref_count_ then
        some { b with ref_count_ := b.ref_count_ - ((([] : List Nat).count b.buffer_ : Nat) : Int) }
        else none) = some b := by
      intro b hb
      have := hr b hb
      have h0 : (0 : Int) < b.ref_count_ := by omega
      simp [h0]
    rw [filterMap_congr_mem _ some bs h]
    simp
  | cons X t ih =>
    intro bs hd hr
    simp only [List.foldl_cons]
    rw [ih _ (distinct_update X bs hd).2.1 (ref_inv_update X bs hr).2.1,
      update_first_eq_filterMap X decr bs hd, List.filterMap_filterMap]
    apply filterMap_congr_mem
    intro b hb
    have hb1 := hr b hb
    by_cases hbX : b.buffer_ = X
    · by_cases hc : b.ref_count_ - 1 ≤ 0
      · have h1 : ¬ ((t.count X : Int) + 1 < b.ref_count_) := by omega
        simp [hbX, decr, hc, List.count_cons, h1]
      · by_cases h2 : (t.count X : Int) < b.ref_count_ - 1
        · have h3 : (t.count X : Int) + 1 < b.ref_count_ := by omega
          have e : b.ref_count_ - 1 - (t.count X : Int)
              = b.ref_count_ - ((t.count X : Int) + 1) := by omega
          simp [hbX, decr, hc, List.count_cons, h2, h3, e]
        · have h3 : ¬ ((t.count X : Int) + 1 < b.ref_count_) := by omega
          simp [hbX, decr, hc, List.count_cons, h2, h3]
    · have hb2 : ¬ X = b.buffer_ := fun e => hbX e.symm
      simp [hbX, hb2, List.count_cons]

theorem entry_filterMap (G : Buffer → Option Buffer)
    (hG : ∀ x y, G x = some y → y.buffer_ = x.buffer_) (bs : List Buffer)
    (hd : (bs.map (fun b => b.buffer_)).Nodup) (b : Buffer) (hb : b ∈ bs) :
    (bs.filterMap G).find? (fun e => decide (e.buffer_ = b.buffer_)) = G b := by
  induction bs with
  | nil => simp at hb
  | cons a t ih =>
    have hnd : a.buffer_ ∉ t.map (fun b => b.buffer_) ∧ (t.map (fun b => b.buffer_)).Nodup :=
      List.nodup_cons.1 hd
    rcases List.mem_cons.1 hb with hba | hbt
    · subst hba
      cases hGb : G b with
      | none =>
        simp only [List.filterMap_cons, hGb]
        rw [List.find?_eq_none]
        intro e he
        obtain ⟨x, hx, hxe⟩ := List.mem_filterMap.1 he
        have : e.buffer_ ≠ b.buffer_ := by
          rw [hG x e hxe]
          exact fun h => hnd.1 (List.mem_map.2 ⟨x, hx, h⟩)
        simpa using this
      | some y =>
        simp only [List.filterMap_cons, hGb]
        simp [List.find?, hG b y hGb]
    · have hne : a.buffer_ ≠ b.buffer_ := fun h =>
        hnd.1 (List.mem_map.2 ⟨b, hbt, h.symm⟩)
      cases hGa : G a with
      | none =>
        simp only [List.filterMap_cons, hGa]
        exact ih hnd.2 hbt
      | some y =>
        have hy : y.buffer_ ≠ b.buffer_ := by rw [hG a y hGa]; exact hne
        simp only [List.filterMap_cons, hGa]
        simp only [List.find?, hy, decide_False]
        exact ih hnd.2 hbt

/-! ## C9 -/

/-- C9: on a registry with pairwise distinct identities and ref-counts `>= 1`,
`UnRegisterBuffers` with any batch (duplicates allowed) returns the registry
in which an entry with ref-count `c` whose identity occurs `N` times in the
batch has ref-count `c - N` if `c > N` and is absent if `c <= N`, the other
entries, their order and their sync objects being the same; an entry the
batch does not name is unchanged.  With `A` and `B` both at ref-count 1,
`UnRegisterBuffers([A, A, B])` leaves the registry empty. -/
theorem C9_unregister_batch_subtracts_occurrences (m : OverlayBufferManager)
    (batch : List Nat) (hd : Distinct m) (hr : RefInv m) :
    (∃ m1, m.UnRegisterBuffers batch = some m1 ∧
      m1.buffer_handler_ = m.buffer_handler_ ∧
      m1.buffers_ = m.buffers_.filterMap (fun b =>
        if (batch.count b.buffer_ : Int) < b.ref_count_ then
          some { b with ref_count_ := b.ref_count_ - (batch.count b.buffer_ : Int) }
        else none) ∧
      (∀ b ∈ m.buffers_, entry m1 b.buffer_ =
        if (batch.count b.buffer_ : Int) < b.ref_count_ then
          some { b with ref_count_ := b.ref_count_ - (batch.count b.buffer_ : Int) }
        else none) ∧
      (∀ b ∈ m.buffers_, b.buffer_ ∉ batch → b ∈ m1.buffers_)) ∧
    (∀ (A B : Nat) (syA syB : Option NativeSync) (handler : Option Nat), A ≠ B →
      (⟨[⟨A, syA, 1⟩, ⟨B, syB, 1⟩], handler⟩ : OverlayBufferManager).UnRegisterBuffers [A, A, B]
        = some ⟨[], handler⟩) := by
  constructor
  · have hfold := UnRegisterBuffers_fold_counts batch m.buffers_ hd hr
    refine ⟨{ m with buffers_ := batch.foldl (fun acc X => update_first X decr acc) m.buffers_ },
      ?_, rfl, hfold, ?_, ?_⟩
    · simp [UnRegisterBuffers, UnRegisterBuffers_loop_eq]
    · intro b hb
      simp only [entry, hfold]
      apply entry_filterMap _ _ m.buffers_ hd b hb
      intro x y hxy
      split at hxy
      · simp only [Option.some.injEq] at hxy
        rw [← hxy]
      · exact absurd hxy (by simp)
    · intro b hb hnot
      simp only [hfold]
      rw [List.mem_filterMap]
      refine ⟨b, hb, ?_⟩
      have h0 : batch.count b.buffer_ = 0 := List.count_eq_zero_of_not_mem hnot
      have h1 := hr b hb
      have h2 : (0 : Int) < b.ref_count_ := by omega
      simp [h0, h2]
  · intro A B syA syB handler hAB
    have hBA : ¬ B = A := fun e => hAB e.symm
    simp [UnRegisterBuffers, UnRegisterBuffers_loop_eq, update_first, decr, hBA]

/-- C9 at a concrete input: the batch `[1, 2, 1]` on buffers 1, 2, 3 with
ref-counts 2, 3, 1. -/
theorem C9_unregister_batch_subtracts_occurrences_witness :
    (∃ m1, (⟨[⟨1, none, 2⟩, ⟨2, none, 3⟩, ⟨3, none, 1⟩], none⟩ :
        OverlayBufferManager).UnRegisterBuffers [1, 2, 1] = some m1 ∧
      m1.buffer_handler_ = (⟨[⟨1, none, 2⟩, ⟨2, none, 3⟩, ⟨3, none, 1⟩], none⟩ :
        OverlayBufferManager).buffer_handler_ ∧
      m1.buffers_ = (⟨[⟨1, none, 2⟩, ⟨2, none, 3⟩, ⟨3, none, 1⟩], none⟩ :
          OverlayBufferManager).buffers_.filterMap (fun b =>
        if (([1, 2, 1] : List Nat).count b.buffer_ : Int) < b.ref_count_ then
          some { b with
            ref_count_ := b.ref_count_ - (([1, 2, 1] : List Nat).count b.buffer_ : Int) }
        else none) ∧
      (∀ b ∈ (⟨[⟨1, none, 2⟩, ⟨2, none, 3⟩, ⟨3, none, 1⟩], none⟩ :
          OverlayBufferManager).buffers_, entry m1 b.buffer_ =
        if (([1, 2, 1] : List Nat).count b.buffer_ : Int) < b.ref_count_ then
          some { b with
            ref_count_ := b.ref_count_ - (([1, 2, 1] : List Nat).count b.buffer_ : Int) }
        else none) ∧
      (∀ b ∈ (⟨[⟨1, none, 2⟩, ⟨2, none, 3⟩, ⟨3, none, 1⟩], none⟩ :
          OverlayBufferManager).buffers_, b.buffer_ ∉ [1, 2, 1] → b ∈ m1.buffers_)) ∧
    (∀ (A B : Nat) (syA syB : Option NativeSync) (handler : Option Nat), A ≠ B →
      (⟨[⟨A, syA, 1⟩, ⟨B, syB, 1⟩], handler⟩ : OverlayBufferManager).UnRegisterBuffers [A, A, B]
        = some ⟨[], handler⟩) :=
  C9_unregister_batch_subtracts_occurrences
    ⟨[⟨1, none, 2⟩, ⟨2, none, 3⟩, ⟨3, none, 1⟩], none⟩ [1, 2, 1] (by decide) (by decide)

theorem sync_step_refl (layers : List OverlayLayer) (bs : List Buffer) :
    List.Forall₂ (sync_step layers) bs bs := by
  induction bs with
  | nil => exact List.Forall₂.nil
  | cons a t ih => exact List.Forall₂.cons ⟨rfl, rfl, Or.inl rfl⟩ ih

theorem sync_step_trans (layers : List OverlayLayer) (l1 l2 l3 : List Buffer)
    (h12 : List.Forall₂ (sync_step layers) l1 l2)
    (h23 : List.Forall₂ (sync_step layers) l2 l3) :
    List.Forall₂ (sync_step layers) l1 l3 := by
  induction h12 generalizing l3 with
  | nil => cases h23; exact List.Forall₂.nil
  | cons hab _ ih =>
    cases h23 with
    | cons hbc htail =>
      refine List.Forall₂.cons ?_ (ih _ htail)
      obtain ⟨hi1, hr1, hs1⟩ := hab
      obtain ⟨hi2, hr2, hs2⟩ := hbc
      refine ⟨hi2.trans hi1, hr2.trans hr1, ?_⟩
      rcases hs2 with h | ⟨h, hp⟩
      · rcases hs1 with h1 | ⟨h1, hp1⟩
        · exact Or.inl (h.trans h1)
        · exact Or.inr ⟨h.trans h1, hp1⟩
      · exact Or.inr ⟨h, hi1 ▸ hp⟩

theorem sync_step_update (layers : List OverlayLayer) (X : Nat)
    (hX : ready_buffer layers X) (bs : List Buffer) :
    List.Forall₂ (sync_step layers) bs (update_first X clear_sync bs) := by
  induction bs with
  | nil => exact List.Forall₂.nil
  | cons a t ih =>
    by_cases ha : a.buffer_ = X
    · simp only [update_first, ha, ne_eq, not_true_eq_false, if_false, clear_sync]
      exact List.Forall₂.cons ⟨ha.symm, rfl, Or.inr ⟨rfl, by rw [ha]; exact hX⟩⟩
        (sync_step_refl layers t)
    · simp only [update_first, ne_eq, ha, not_false_eq_true, if_true]
      exact List.Forall₂.cons ⟨rfl, rfl, Or.inl rfl⟩ ih

theorem sync_step_loop (layers ls : List OverlayLayer) (hls : ∀ l ∈ ls, l ∈ layers) :
    ∀ bs : List Buffer,
      List.Forall₂ (sync_step layers) bs (SignalBuffersIfReady_loop ls bs) := by
  induction ls with
  | nil => intro bs; exact sync_step_refl layers bs
  | cons l t ih =>
    intro bs
    have iht := ih (fun x hx => hls x (List.mem_cons_of_mem _ hx))
    simp only [SignalBuffersIfReady_loop, SignalBuffersIfReady_scan_top]
    split
    · exact iht bs
    · rename_i hready
      split
      · exact iht bs
      · rename_i hnull
        have hX : ready_buffer layers l.GetBuffer :=
          ⟨l, hls l (List.mem_cons_self _ _), by simpa using hready, hnull, rfl⟩
        exact sync_step_trans layers _ _ _ (sync_step_update layers _ hX bs) (iht _)

theorem forall2_map_eq (layers : List OverlayLayer) (l1 l2 : List Buffer)
    (h : List.Forall₂ (sync_step layers) l1 l2) :
    l2.map (fun b => (b.buffer_, b.ref_count_)) = l1.map (fun b => (b.buffer_, b.ref_count_)) := by
  induction h with
  | nil => rfl
  | cons hab _ ih => simp [hab.1, hab.2.1, ih]

theorem forall2_getElem? (layers : List OverlayLayer) (l1 l2 : List Buffer)
    (h : List.Forall₂ (sync_step layers) l1 l2) :
    ∀ (i : Nat) (b b1 : Buffer), l1[i]? = some b → l2[i]? = some b1 → sync_step layers b b1 := by
  induction h with
  | nil => intro i b b1 h1; simp at h1
  | cons hab _ ih =>
    intro i b b1 h1 h2
    cases i with
    | zero =>
      simp only [List.getElem?_cons_zero, Option.some.injEq] at h1 h2
      rw [← h1, ← h2]; exact hab
    | succ i =>
      simp only [List.getElem?_cons_succ] at h1 h2
      exact ih i b b1 h1 h2

theorem SignalBuffersIfReady_loop_filter (ls : List OverlayLayer) :
    ∀ bs : List Buffer,
      SignalBuffersIfReady_loop ls bs
        = SignalBuffersIfReady_loop
            (ls.filter (fun l => decide (l.GetReleaseFenceState = NativeSync.State.kReady))) bs := by
  induction ls with
  | nil => intro bs; rfl
  | cons l t ih =>
    intro bs
    by_cases hready : l.GetReleaseFenceState = NativeSync.State.kReady
    · by_cases hnull : l.GetBuffer = 0
      · simp [List.filter, hready, SignalBuffersIfReady_loop, hnull, ih bs]
      · simp only [List.filter, hready, decide_True, SignalBuffersIfReady_loop, ne_eq,
          not_true_eq_false, if_false, hnull]
        exact ih _
    · simp only [List.filter, hready, decide_False, SignalBuffersIfReady_loop, ne_eq,
        not_false_eq_true, if_true]
      exact ih bs

/-! ## C10 -/

/-- C10: `SignalBuffersIfReady` leaves the number, order, identities and
ref-counts of the entries unchanged (and the handler); position by position,
an entry differs from the one before only in its sync object, which is then
absent, and only when the identity of the entry is the non-null buffer of a
binding whose release-fence state is `kReady`.  The bindings that are not
ready have no effect: the result is the one for the ready bindings alone, and
it is the unchanged state when no binding is ready. -/
theorem C10_signal_only_drops_sync_of_ready (m : OverlayBufferManager)
    (layers : List OverlayLayer) :
    (m.SignalBuffersIfReady layers).buffer_handler_ = m.buffer_handler_ ∧
    (m.SignalBuffersIfReady layers).buffers_.length = m.buffers_.length ∧
    (m.SignalBuffersIfReady layers).buffers_.map (fun b => (b.buffer_, b.ref_count_))
      = m.buffers_.map (fun b => (b.buffer_, b.ref_count_)) ∧
    (∀ (i : Nat) (b b1 : Buffer), m.buffers_[i]? = some b →
      (m.SignalBuffersIfReady layers).buffers_[i]? = some b1 →
      b1.buffer_ = b.buffer_ ∧ b1.ref_count_ = b.ref_count_ ∧
      (b1.sync_object_ ≠ b.sync_object_ →
        b1.sync_object_ = none ∧
        ∃ layer ∈ layers, layer.GetReleaseFenceState = NativeSync.State.kReady ∧
          layer.GetBuffer ≠ 0 ∧ layer.GetBuffer = b.buffer_)) ∧
    m.SignalBuffersIfReady layers
      = m.SignalBuffersIfReady
          (layers.filter (fun l => decide (l.GetReleaseFenceState = NativeSync.State.kReady))) ∧
    ((∀ layer ∈ layers, layer.GetReleaseFenceState ≠ NativeSync.State.kReady) →
      m.SignalBuffersIfReady layers = m) := by
  have hrel := sync_step_loop layers layers (fun _ h => h) m.buffers_
  have hfilter := SignalBuffersIfReady_loop_filter layers m.buffers_
  refine ⟨rfl, ?_, forall2_map_eq layers _ _ hrel, ?_, ?_, ?_⟩
  · exact hrel.length_eq.symm
  · intro i b b1 h1 h2
    obtain ⟨hi, hr, hs⟩ := forall2_getElem? layers _ _ hrel i b b1 h1 h2
    refine ⟨hi, hr, fun hne => ?_⟩
    rcases hs with h | ⟨h, hp⟩
    · exact absurd h hne
    · exact ⟨h, hp⟩
  · simp only [SignalBuffersIfReady]
    rw [hfilter]
  · intro hnone
    have hnil : layers.filter
        (fun l => decide (l.GetReleaseFenceState = NativeSync.State.kReady)) = [] := by
      rw [List.filter_eq_nil_iff]
      intro l hl
      simpa using hnone l hl
    simp only [SignalBuffersIfReady]
    rw [hfilter, hnil]
    rfl

theorem clear_sync_twice (X : Nat) (bs : List Buffer) :
    update_first X clear_sync (update_first X clear_sync bs) = update_first X clear_sync bs := by
  induction bs with
  | nil => rfl
  | cons a t ih =>
    by_cases ha : a.buffer_ = X
    · simp [update_first, ha, clear_sync]
    · simp [update_first, ha, ih]

theorem clear_sync_swap (X Y : Nat) (bs : List Buffer) :
    update_first X clear_sync (update_first Y clear_sync bs)
      = update_first Y clear_sync (update_first X clear_sync bs) := by
  induction bs with
  | nil => rfl
  | cons a t ih =>
    by_cases haX : a.buffer_ = X
    · by_cases haY : a.buffer_ = Y
      · have hXY : X = Y := haX.symm.trans haY
        subst hXY
        rfl
      · have hXY : ¬ X = Y := fun e => haY (haX.trans e)
        simp [update_first, haX, clear_sync, hXY]
    · by_cases haY : a.buffer_ = Y
      · have hYX : ¬ Y = X := fun e => haX (haY.trans e)
        simp [update_first, haY, clear_sync, hYX]
      · simp [update_first, haX, haY, ih]

theorem SignalBuffersIfReady_loop_swap (X : Nat) (ls : List OverlayLayer) :
    ∀ bs : List Buffer,
      SignalBuffersIfReady_loop ls (update_first X clear_sync bs)
        = update_first X clear_sync (SignalBuffersIfReady_loop ls bs) := by
  induction ls with
  | nil => intro bs; rfl
  | cons l t ih =>
    intro bs
    simp only [SignalBuffersIfReady_loop, SignalBuffersIfReady_scan_top]
    split
    · exact ih bs
    · split
      · exact ih bs
      · rw [clear_sync_swap, ih]

theorem SignalBuffersIfReady_loop_twice (ls : List OverlayLayer) :
    ∀ bs : List Buffer,
      SignalBuffersIfReady_loop ls (SignalBuffersIfReady_loop ls bs)
        = SignalBuffersIfReady_loop ls bs := by
  induction ls with
  | nil => intro bs; rfl
  | cons l t ih =>
    intro bs
    simp only [SignalBuffersIfReady_loop, SignalBuffersIfReady_scan_top]
    split
    · exact ih bs
    · split
      · exact ih bs
      · rw [← SignalBuffersIfReady_loop_swap, clear_sync_twice, ih]

theorem forall2_getElem?_left (layers : List OverlayLayer) (l1 l2 : List Buffer)
    (h : List.Forall₂ (sync_step layers) l1 l2) :
    ∀ (i : Nat) (b : Buffer), l1[i]? = some b →
      ∃ b1, l2[i]? = some b1 ∧ sync_step layers b b1 := by
  induction h with
  | nil => intro i b h1; simp at h1
  | cons hab _ ih =>
    intro i b h1
    cases i with
    | zero =>
      simp only [List.getElem?_cons_zero, Option.some.injEq] at h1
      exact ⟨_, List.getElem?_cons_zero, h1 ▸ hab⟩
    | succ i =>
      simp only [List.getElem?_cons_succ] at h1 ⊢
      exact ih i b h1

/-! ## C11 -/

/-- C11: `SignalBuffersIfReady` is idempotent: for every registry state and
every list of layer bindings, running it a second time with the same list
returns the state the first run returned; and an entry whose sync object is
already absent is, at its position, the same entry after the call. -/
theorem C11_signal_is_idempotent (m : OverlayBufferManager) (layers : List OverlayLayer) :
    (m.SignalBuffersIfReady layers).SignalBuffersIfReady layers
      = m.SignalBuffersIfReady layers ∧
    (∀ (i : Nat) (b : Buffer), m.buffers_[i]? = some b → b.sync_object_ = none →
      (m.SignalBuffersIfReady layers).buffers_[i]? = some b) := by
  constructor
  · simp only [SignalBuffersIfReady, SignalBuffersIfReady_loop_twice]
  · intro i b hb hnone
    have hrel := sync_step_loop layers layers (fun _ h => h) m.buffers_
    obtain ⟨b1, h1, hi, hr, hs⟩ := forall2_getElem?_left layers _ _ hrel i b hb
    have hs1 : b1.sync_object_ = none := by
      rcases hs with h | ⟨h, _⟩
      · exact h.trans hnone
      · exact h
    have e : b1 = b := by
      cases b1; cases b
      simp only at hi hr hs1 hnone
      simp [hi, hr, hs1, hnone]
    simpa [SignalBuffersIfReady, e] using h1

/-! ## C12 -/

/-- C12: `CreateBuffer` and `CreateBufferFromNativeHandle` each return the
registry they were given followed by exactly one new entry, whose identity is
the new buffer and whose `ref_count_` is 1, the existing entries being the
same and in the same order; this holds whether `Init()` of the new sync
object returned true or false, and the result of `Init()` changes neither
the identities nor the ref-counts of the resulting registry. -/
theorem C12_creation_appends_one_entry (m : OverlayBufferManager) (new_buffer : Nat)
    (init_ok : Bool) (fence : Int) :
    (∃ e : Buffer, (m.CreateBuffer new_buffer init_ok fence).1.buffers_ = m.buffers_ ++ [e] ∧
      e.buffer_ = new_buffer ∧ e.ref_count_ = 1 ∧ e.sync_object_.isSome = true) ∧
    (∃ e : Buffer,
      (m.CreateBufferFromNativeHandle new_buffer init_ok fence).1.buffers_ = m.buffers_ ++ [e] ∧
      e.buffer_ = new_buffer ∧ e.ref_count_ = 1 ∧ e.sync_object_.isSome = true) ∧
    (m.CreateBuffer new_buffer true fence).1.buffers_.map (fun b => (b.buffer_, b.ref_count_))
      = (m.CreateBuffer new_buffer false fence).1.buffers_.map
          (fun b => (b.buffer_, b.ref_count_)) ∧
    (m.CreateBufferFromNativeHandle new_buffer true fence).1.buffers_.map
        (fun b => (b.buffer_, b.ref_count_))
      = (m.CreateBufferFromNativeHandle new_buffer false fence).1.buffers_.map
          (fun b => (b.buffer_, b.ref_count_)) ∧
    (m.CreateBuffer new_buffer init_ok fence).2.buffer_ = new_buffer ∧
    (m.CreateBufferFromNativeHandle new_buffer init_ok fence).2.buffer_ = new_buffer := by
  refine ⟨⟨_, rfl, rfl, rfl, rfl⟩, ⟨_, rfl, rfl, rfl, rfl⟩, ?_, ?_, rfl, rfl⟩
  · simp [CreateBuffer]
  · simp [CreateBufferFromNativeHandle]

theorem update_first_decr_ne (X : Nat) (bs : List Buffer) (h : has_id X bs = true) :
    update_first X decr bs ≠ bs := by
  induction bs with
  | nil => simp [has_id] at h
  | cons a t ih =>
    by_cases ha : a.buffer_ = X
    · by_cases hc : a.ref_count_ - 1 ≤ 0
      · simp only [update_first, ha, ne_eq, not_true_eq_false, if_false, decr, hc, if_true]
        intro e
        have := congrArg List.length e
        simp at this
      · simp only [update_first, ha, ne_eq, not_true_eq_false, if_false, decr, hc]
        intro e
        have e1 := (List.cons.inj e).1
        have e2 := congrArg Buffer.ref_count_ e1
        simp only at e2
        omega
    · have ht : has_id X t = true := by
        simpa [has_id, ha] using h
      simp only [update_first, ne_eq, ha, not_false_eq_true, if_true]
      intro e
      exact ih ht (List.cons.inj e).2

/-! ## C13 -/

/-- C13, the claim as written, at a concrete input: the registry holds buffer
5 with ref-count 2 and the handle names buffer 5.  The release decrements the
entry and leaves the identity of the handle set; releasing the same handle a
second time erases the entry, so the registry is not unchanged. -/
theorem C13_counterexample :
    (⟨5, 0⟩ : ImportedBuffer).release ⟨[⟨5, none, 2⟩], none⟩
      = some (⟨5, 0⟩, ⟨[⟨5, none, 1⟩], none⟩) ∧
    (⟨5, 0⟩ : ImportedBuffer).buffer_ ≠ 0 ∧
    (⟨5, 0⟩ : ImportedBuffer).release ⟨[⟨5, none, 1⟩], none⟩ = some (⟨5, 0⟩, ⟨[], none⟩) ∧
    (⟨[], none⟩ : OverlayBufferManager) ≠ ⟨[⟨5, none, 1⟩], none⟩ := by
  decide

/-- C13, amended: if the identity of the handle is set, release returns, its
effect on the registry is the one of a single `UnRegisterBuffer` of that
identity, and the identity of the handle stays set; releasing the same handle
a second time leaves the registry unchanged exactly when no entry matches the
identity after the first release.  If the identity is not set, release leaves
the registry unchanged. -/
theorem C13_release_unregisters_once_and_keeps_identity (h : ImportedBuffer)
    (m : OverlayBufferManager) :
    (h.buffer_ ≠ 0 →
      ∃ m1, h.release m = some (h, m1) ∧ m.UnRegisterBuffer h.buffer_ = some m1 ∧
        (h.release m1 = some (h, m1) ↔ has_entry m1 h.buffer_ = false)) ∧
    (h.buffer_ = 0 → h.release m = some (h, m)) := by
  constructor
  · intro hset
    refine ⟨_, ?_, UnRegisterBuffer_eq m h.buffer_, ?_⟩
    · simp [ImportedBuffer.release, ImportedBuffer.destroy, hset, UnRegisterBuffer_eq]
    · simp only [ImportedBuffer.release, ImportedBuffer.destroy, ne_eq, hset,
        not_false_eq_true, if_true, UnRegisterBuffer_eq, Option.map_some', Option.some.injEq,
        Prod.mk.injEq, true_and, has_entry]
      constructor
      · intro e
        by_contra hne
        have hpres : has_id h.buffer_
            (update_first h.buffer_ decr m.buffers_) = true := by simpa using hne
        exact update_first_decr_ne h.buffer_ _ hpres (congrArg OverlayBufferManager.buffers_ e)
      · intro habs
        rw [update_first_absent h.buffer_ decr _ habs]
  · intro hnull
    simp [ImportedBuffer.release, ImportedBuffer.destroy, hnull]

/-! ## C14 -/

/-- C14: for every registry state and every list of identities,
`RegisterBuffers` returns the state that `RegisterBuffer` applied to the
identities one after the other returns, and `UnRegisterBuffers` returns the
state that `UnRegisterBuffer` applied to them one after the other returns. -/
theorem C14_batch_is_elementwise (m : OverlayBufferManager) (xs : List Nat) :
    m.RegisterBuffers xs = xs.foldl (fun acc x => acc.RegisterBuffer x) m ∧
    m.UnRegisterBuffers xs = xs.foldlM (fun acc x => acc.UnRegisterBuffer x) m := by
  constructor
  · induction xs generalizing m with
    | nil => rfl
    | cons x t ih =>
      rw [List.foldl_cons, ← ih (m.RegisterBuffer x)]
      rfl
  · induction xs generalizing m with
    | nil => rfl
    | cons x t ih =>
      rw [List.foldlM_cons, UnRegisterBuffer_eq]
      simp only [Option.pure_def, Option.bind_eq_bind, Option.some_bind]
      rw [← ih]
      simp [UnRegisterBuffers, UnRegisterBuffers_loop, UnRegisterBuffer_scan_top]

theorem UnRegisterBuffer_erase_call_eq (X : Nat) (suf pre : List Buffer)
    (v : List Buffer) (i : Int)
    (h : UnRegisterBuffer_erase_call X suf.length pre.length ((pre.length : Int) - 1)
      (pre ++ suf) = some (v, i)) :
    ∃ p b t, suf = p ++ b :: t ∧ has_id X p = false ∧ b.buffer_ = X ∧
      b.ref_count_ - 1 ≤ 0 ∧
      v = (pre ++ p) ++ { b with ref_count_ := b.ref_count_ - 1 } :: t ∧
      i = ((pre ++ p).length : Int) := by
  induction suf generalizing pre with
  | nil => simp [UnRegisterBuffer_erase_call] at h
  | cons a t ih =>
    simp only [List.length_cons, UnRegisterBuffer_erase_call, getElem?_mid,
      sub_add_cancel] at h
    by_cases ha : a.buffer_ = X
    · by_cases hc : a.ref_count_ - 1 ≤ 0
      · simp only [ha, ne_eq, not_true_eq_false, if_false, hc, if_true, set_mid,
          Option.some.injEq, Prod.mk.injEq] at h
        exact ⟨[], a, t, rfl, rfl, ha, hc, by simp [← h.1, ha], by simp [← h.2]⟩
      · simp [ha, hc] at h
    · simp only [ne_eq, ha, not_false_eq_true, if_true] at h
      have h2 := ih (pre ++ [a])
      simp only [List.length_append, List.length_singleton, List.append_assoc,
        List.singleton_append, Nat.cast_add, Nat.cast_one, add_sub_cancel_right] at h2
      obtain ⟨p, b, t1, hs, hp, hb, hc, hv, hi⟩ := h2 h
      refine ⟨a :: p, b, t1, by rw [hs]; rfl, ?_, hb, hc, ?_, ?_⟩
      · simp only [has_id, List.any_cons, Bool.or_eq_false_iff, decide_eq_false_iff_not]
        exact ⟨ha, hp⟩
      · rw [hv]; simp
      · rw [hi]; simp

theorem UnRegisterBuffer_erase_call_reached (X : Nat) (suf pre : List Buffer) (b : Buffer)
    (hb : suf.find? (fun e => decide (e.buffer_ = X)) = some b) (hc : b.ref_count_ - 1 ≤ 0) :
    (UnRegisterBuffer_erase_call X suf.length pre.length ((pre.length : Int) - 1)
      (pre ++ suf)).isSome = true := by
  induction suf generalizing pre with
  | nil => simp at hb
  | cons a t ih =>
    simp only [List.length_cons, UnRegisterBuffer_erase_call, getElem?_mid, sub_add_cancel]
    by_cases ha : a.buffer_ = X
    · have hab : a = b := by simpa [List.find?, ha] using hb
      subst hab
      simp [ha, hc]
    · have hbt : t.find? (fun e => decide (e.buffer_ = X)) = some b := by
        simpa [List.find?, ha] using hb
      have h2 := ih (pre ++ [a]) hbt
      simp only [List.length_append, List.length_singleton, List.append_assoc,
        List.singleton_append, Nat.cast_add, Nat.cast_one, add_sub_cancel_right] at h2
      simpa [ha] using h2

theorem UnRegisterLayerBuffers_scan_registry (X : Nat) (layer : OverlayLayer) (todo : Nat) :
    ∀ (it : Nat) (index : Int) (bs : List Buffer),
      (UnRegisterLayerBuffers_scan X todo it index bs layer).map (fun r => r.1)
        = UnRegisterBuffer_scan X todo it index bs := by
  induction todo with
  | zero => intro it index bs; rfl
  | succ n ih =>
    intro it index bs
    simp only [UnRegisterLayerBuffers_scan, UnRegisterBuffer_scan]
    cases hget : bs[it]? with
    | none => rfl
    | some ob =>
      simp only
      by_cases hob : ob.buffer_ = X
      · by_cases hc : ob.ref_count_ - 1 ≤ 0
        · simp only [hob, ne_eq, not_true_eq_false, if_false, hc, if_true]
          generalize erase_at _ _ = r
          cases r <;> rfl
        · simp [hob, hc]
      · simp only [ne_eq, hob, not_false_eq_true, if_true]
        exact ih _ _ _

/-! ## C15 -/

/-- C15: no unregister operation erases out of range.  `UnRegisterBuffer`,
`UnRegisterBuffers` and `UnRegisterLayerBuffers` return normally for every
registry state and every argument (repeated identities and interior
removals included), the scan of `UnRegisterLayerBuffers` doing to the
registry exactly what the scan of `UnRegisterBuffer` does.  Whenever the
scan reaches `erase`, on any registry, the index passed is the position of
the first entry matching the identity, which is the entry just decremented:
`0 <= index < size`; the scan returns the vector right after that erase;
and the erase is reached as soon as the matched entry drops to `<= 0`. -/
theorem C15_erase_index_in_range (m : OverlayBufferManager) (X : Nat) (Xs : List Nat)
    (layers : List OverlayLayer) :
    (∃ m1, m.UnRegisterBuffer X = some m1) ∧
    (∃ m1, m.UnRegisterBuffers Xs = some m1) ∧
    (∃ r, m.UnRegisterLayerBuffers layers = some r) ∧
    (∀ (bs : List Buffer) (layer : OverlayLayer),
      (UnRegisterLayerBuffers_scan X bs.length 0 (-1) bs layer).map (fun r => r.1)
        = UnRegisterBuffer_scan X bs.length 0 (-1) bs) ∧
    (∀ (bs v : List Buffer) (i : Int),
      UnRegisterBuffer_erase_call X bs.length 0 (-1) bs = some (v, i) →
        0 ≤ i ∧ i < v.length ∧ v.length = bs.length ∧
        (∃ b, bs[i.toNat]? = some b ∧ b.buffer_ = X ∧ b.ref_count_ - 1 ≤ 0 ∧
          v = bs.set i.toNat { b with ref_count_ := b.ref_count_ - 1 }) ∧
        (∀ (j : Nat) (e : Buffer), j < i.toNat → bs[j]? = some e → e.buffer_ ≠ X) ∧
        UnRegisterBuffer_scan X bs.length 0 (-1) bs = erase_at v i ∧
        erase_at v i = some (bs.eraseIdx i.toNat)) ∧
    (∀ (bs : List Buffer) (b : Buffer),
      bs.find? (fun e => decide (e.buffer_ = X)) = some b → b.ref_count_ - 1 ≤ 0 →
        (UnRegisterBuffer_erase_call X bs.length 0 (-1) bs).isSome = true) := by
  refine ⟨⟨_, UnRegisterBuffer_eq m X⟩,
    ⟨{ m with buffers_ := Xs.foldl (fun acc Y => update_first Y decr acc) m.buffers_ }, ?_⟩,
    ⟨_, UnRegisterLayerBuffers_eq m layers⟩, ?_, ?_, ?_⟩
  · simp only [UnRegisterBuffers, UnRegisterBuffers_loop_eq]
  · intro bs layer
    exact UnRegisterLayerBuffers_scan_registry X layer bs.length 0 (-1) bs
  · intro bs v i h
    have h0 := UnRegisterBuffer_erase_call_eq X bs [] v i (by simpa using h)
    obtain ⟨p, b, t, hs, hp, hb, hc, hv, hi⟩ := h0
    simp only [List.nil_append] at hv hi
    have hit : i.toNat = p.length := by rw [hi]; simp
    refine ⟨by rw [hi]; exact Int.natCast_nonneg _, ?_, ?_, ⟨b, ?_, hb, hc, ?_⟩, ?_, ?_, ?_⟩
    · rw [hi, hv]; simp only [List.length_append, List.length_cons]; push_cast; omega
    · rw [hv, hs]; simp
    · rw [hit, hs]; exact getElem?_mid p b t
    · rw [hit, hs, hv, set_mid]
    · intro j e hj hje
      rw [hit] at hj
      rw [hs, List.getElem?_append_left hj] at hje
      have hmem : e ∈ p := List.getElem?_mem hje
      exact (has_id_eq_false_iff X p).1 hp e hmem
    · rw [UnRegisterBuffer_scan_top, hs, update_first_append X decr p _ hp, hv, hi,
        erase_at_mid]
      simp [update_first, hb, decr, hc]
    · rw [hit, hv, hi, erase_at_mid, hs, eraseIdx_mid]
  · intro bs b hfind hc
    have := UnRegisterBuffer_erase_call_reached X bs [] b hfind hc
    simpa using this

/-- The erase calls in the scenario of the batch `[A, A, B]` on `A` and
`B` at ref-count 1, with `A = 1` and `B = 2`.  The first scan erases at index
0 of a two-element vector, the second finds no entry, the third erases at
index 0 of a one-element vector. -/
theorem erase_call_batch_scenario :
    UnRegisterBuffer_erase_call 1 2 0 (-1) [⟨1, none, 1⟩, ⟨2, none, 1⟩]
      = some ([⟨1, none, 0⟩, ⟨2, none, 1⟩], 0) ∧
    UnRegisterBuffer_erase_call 1 1 0 (-1) [⟨2, none, 1⟩] = none ∧
    UnRegisterBuffer_erase_call 2 1 0 (-1) [⟨2, none, 1⟩] = some ([⟨2, none, 0⟩], 0) ∧
    (⟨[⟨1, none, 1⟩, ⟨2, none, 1⟩], none⟩ : OverlayBufferManager).UnRegisterBuffers [1, 1, 2]
      = some ⟨[], none⟩ := by
  decide

/-! ## C16 -/

/-- C16: `Initialize` returns false if and only if
`NativeBufferHandler::CreateInstance(gpu_fd)` returned null, and true
otherwise; it stores the instance as the handler and leaves the entries of
the registry as they are. -/
theorem C16_initialize_fails_iff_no_handler (m : OverlayBufferManager)
    (instance_ : Option Nat) :
    ((m.Initialize instance_).2 = false ↔ instance_ = none) ∧
    ((m.Initialize instance_).2 = true ↔ instance_ ≠ none) ∧
    (m.Initialize instance_).1.buffers_ = m.buffers_ ∧
    (m.Initialize instance_).1.buffer_handler_ = instance_ := by
  cases instance_ with
  | none => simp [Initialize]
  | some handler => simp [Initialize]

theorem release_layers_registry (layers : List OverlayLayer) :
    ∀ bs : List Buffer,
      (release_layers layers bs).1
        = ((layers.map OverlayLayer.GetBuffer).filter (fun X => decide (X ≠ 0))).foldl
            (fun acc X => update_first X decr acc) bs := by
  induction layers with
  | nil => intro bs; rfl
  | cons l t ih =>
    intro bs
    by_cases h0 : l.GetBuffer = 0
    · simp [release_layers, h0, List.filter, ih bs]
    · simp [release_layers, h0, List.filter, ih]

/-! ## C18 -/

/-- C18: for every registry state and every list of layer bindings, the
registry after `UnRegisterLayerBuffers(L)` is the registry after
`UnRegisterBuffers` of the non-null `GetBuffer()` values of `L`, taken in
order. -/
theorem C18_layer_unregister_is_batch_unregister (m : OverlayBufferManager)
    (layers : List OverlayLayer) :
    (m.UnRegisterLayerBuffers layers).map (fun r => r.1)
      = m.UnRegisterBuffers
          ((layers.map OverlayLayer.GetBuffer).filter (fun X => decide (X ≠ 0))) := by
  simp only [UnRegisterLayerBuffers_eq, Option.map_some', UnRegisterBuffers,
    UnRegisterBuffers_loop_eq, release_layers_registry]

theorem decr_incr_cancel (X : Nat) (bs : List Buffer) (h : ∀ b ∈ bs, 1 ≤ b.ref_count_) :
    update_first X decr (update_first X incr bs) = bs := by
  induction bs with
  | nil => rfl
  | cons a t ih =>
    have ha1 := h a (List.mem_cons_self _ _)
    by_cases ha : a.buffer_ = X
    · have hc : ¬ (a.ref_count_ + 1 - 1 ≤ 0) := by omega
      have hc2 : ¬ (a.ref_count_ ≤ 0) := by omega
      have e : a.ref_count_ + 1 - 1 = a.ref_count_ := by omega
      cases a
      simp only at ha hc hc2 e
      simp [update_first, incr, decr, ha, hc, hc2, e]
    · have ht := ih (fun b hb => h b (List.mem_cons_of_mem _ hb))
      simp [update_first, ha, ht]

/-! ## C19 -/

/-- C19: on a registry whose entries have pairwise distinct identities and
ref-counts `>= 1`, `UnRegisterBuffer(X)` after `RegisterBuffer(X)` returns the
registry it started from, whether `X` matches an entry or not. -/
theorem C19_register_then_unregister_is_identity (m : OverlayBufferManager) (X : Nat)
    (_hd : Distinct m) (hr : RefInv m) :
    (m.RegisterBuffer X).UnRegisterBuffer X = some m := by
  rw [UnRegisterBuffer_eq, RegisterBuffer_eq]
  simp only [decr_incr_cancel X m.buffers_ hr]

/-- C19 at a concrete input: buffer 2 in a registry holding buffers 1 and 2. -/
theorem C19_register_then_unregister_is_identity_witness :
    ((⟨[⟨1, none, 1⟩, ⟨2, some ⟨true⟩, 1⟩], none⟩ : OverlayBufferManager).RegisterBuffer
        2).UnRegisterBuffer 2
      = some ⟨[⟨1, none, 1⟩, ⟨2, some ⟨true⟩, 1⟩], none⟩ :=
  C19_register_then_unregister_is_identity ⟨[⟨1, none, 1⟩, ⟨2, some ⟨true⟩, 1⟩], none⟩ 2
    (by decide) (by decide)

theorem update_first_filter_others (X : Nat) (f : Buffer → Option Buffer)
    (hf : ∀ b b1, f b = some b1 → b1.buffer_ = b.buffer_) (bs : List Buffer) :
    (update_first X f bs).filter (fun b => decide (b.buffer_ ≠ X))
      = bs.filter (fun b => decide (b.buffer_ ≠ X)) := by
  induction bs with
  | nil => rfl
  | cons a t ih =>
    by_cases ha : a.buffer_ = X
    · cases hfa : f a with
      | none => simp [update_first, ha, hfa, List.filter]
      | some a1 =>
        have h1 : a1.buffer_ = X := (hf a a1 hfa).trans ha
        simp [update_first, ha, hfa, List.filter, h1]
    · simpa [update_first, ha, List.filter] using ih

theorem update_first_incr_length (X : Nat) (bs : List Buffer) :
    (update_first X incr bs).length = bs.length := by
  induction bs with
  | nil => rfl
  | cons a t ih =>
    by_cases ha : a.buffer_ = X
    · simp [update_first, ha, incr]
    · simp [update_first, ha, ih]

/-! ## C20 -/

/-- C20: for every registry state and identity `X`, the entries whose
identity is not `X` are, after `RegisterBuffer(X)` and after
`UnRegisterBuffer(X)`, the same entries in the same order; `RegisterBuffer`
never changes the size of the registry; and only the first entry matching
`X` is touched: with the registry written as entries not matching `X`, then
an entry `b` matching `X`, then the rest, `RegisterBuffer(X)` replaces `b` by
`b` with one more reference and `UnRegisterBuffer(X)` replaces `b` by `b`
with one reference fewer, or drops it at `<= 0`, the rest being as it was. -/
theorem C20_only_first_match_is_touched (m : OverlayBufferManager) (X : Nat) :
    (m.RegisterBuffer X).buffers_.filter (fun b => decide (b.buffer_ ≠ X))
      = m.buffers_.filter (fun b => decide (b.buffer_ ≠ X)) ∧
    (∃ m1, m.UnRegisterBuffer X = some m1 ∧
      m1.buffers_.filter (fun b => decide (b.buffer_ ≠ X))
        = m.buffers_.filter (fun b => decide (b.buffer_ ≠ X)) ∧
      m1.buffer_handler_ = m.buffer_handler_) ∧
    (m.RegisterBuffer X).buffers_.length = m.buffers_.length ∧
    (m.RegisterBuffer X).buffer_handler_ = m.buffer_handler_ ∧
    (∀ (pre suf : List Buffer) (b : Buffer),
      m.buffers_ = pre ++ b :: suf → has_id X pre = false → b.buffer_ = X →
        (m.RegisterBuffer X).buffers_
          = pre ++ { b with ref_count_ := b.ref_count_ + 1 } :: suf ∧
        m.UnRegisterBuffer X
          = some { m with buffers_ :=
              pre ++ (if b.ref_count_ - 1 ≤ 0 then suf
                      else { b with ref_count_ := b.ref_count_ - 1 } :: suf) }) := by
  refine ⟨?_, ⟨_, UnRegisterBuffer_eq m X, ?_, rfl⟩, ?_, ?_, ?_⟩
  · rw [RegisterBuffer_eq]
    exact update_first_filter_others X incr incr_id m.buffers_
  · exact update_first_filter_others X decr decr_id m.buffers_
  · rw [RegisterBuffer_eq]
    exact update_first_incr_length X m.buffers_
  · rw [RegisterBuffer_eq]
  · intro pre suf b hsplit hpre hb
    constructor
    · rw [RegisterBuffer_eq]
      simp only [hsplit, update_first_append X incr pre _ hpre]
      simp [update_first, hb, incr]
    · rw [UnRegisterBuffer_eq]
      simp only [hsplit, update_first_append X decr pre _ hpre]
      by_cases hc : b.ref_count_ - 1 ≤ 0
      · simp [update_first, hb, decr, hc]
      · simp [update_first, hb, decr, hc]

end OverlayBufferManager

end hwcomposer
